import Mathlib

/-!
Shallow embedding of the dxf-welder sources (src/dxf.rs, src/dxf_process.rs).
Rust `f64` arithmetic is modelled by real numbers; fallible code returns
`Option` / a result type; the `BTreeMap` is modelled by an association list
kept sorted by the map's key order.  Rust definitions keep their names.
-/

namespace DxfWelder

open Classical

noncomputable section

/-- `POINT_PRECISION` from src/dxf.rs (0.00001). -/
def POINT_PRECISION : ℝ := 1 / 100000

/-- `Point` from src/dxf.rs: two `f64` coordinates, modelled as reals. -/
structure Point where
  x : ℝ
  y : ℝ

/-- `impl PartialEq for Point` (src/dxf.rs:23-28): fuzzy equality, both
coordinate differences strictly below `POINT_PRECISION`. -/
def fuzzy_eq (a b : Point) : Prop :=
  |a.x - b.x| < POINT_PRECISION ∧ |a.y - b.y| < POINT_PRECISION

/-- `impl PartialOrd/Ord for Point` (src/dxf.rs:32-42):
`self.x.partial_cmp(&other.x)?.then(self.y.partial_cmp(&other.y)?)`, with
`unwrap_or(Equal)`.  On reals `partial_cmp` is total, so `cmp` is the
lexicographic comparison on `(x, y)`. -/
def Point.cmp (a b : Point) : Ordering :=
  (compare a.x b.x).then (compare a.y b.y)

/-- `Point::dist` (src/dxf.rs:46-48). -/
def Point.dist (a b : Point) : ℝ :=
  Real.sqrt ((a.x - b.x) ^ 2 + (a.y - b.y) ^ 2)

/-- Two-argument arctangent with the semantics of Rust's `f64::atan2`
(standard mathematical `atan2`) for finite arguments. -/
def atan2 (y x : ℝ) : ℝ :=
  if 0 < x then Real.arctan (y / x)
  else if x < 0 then
    (if 0 ≤ y then Real.arctan (y / x) + Real.pi
     else Real.arctan (y / x) - Real.pi)
  else
    (if 0 < y then Real.pi / 2
     else if y < 0 then -(Real.pi / 2)
     else 0)

/-- `Entity` from src/dxf.rs. -/
inductive Entity where
  | Line (p q : Point)
  | Arc (center : Point) (radius start_angle end_angle : ℝ)
  | Circle (center : Point) (radius : ℝ)
  | Polyline (curve_type : ℕ) (vertices : List Point)

/-- `Drawing` from src/dxf.rs. -/
structure Drawing where
  entities : List Entity

/-- `DxfConfig` from src/dxf_process.rs. -/
structure DxfConfig where
  resolution : ℝ
  max_radius : ℝ
  min_segments : ℕ

/-- The fitter-internal `Circle` struct of src/dxf_process.rs. -/
structure FitCircle where
  center : Point
  radius : ℝ

/-- The fitter-internal `Arc` struct of src/dxf_process.rs. -/
structure FitArc where
  center : Point
  radius : ℝ
  start_angle : ℝ
  end_angle : ℝ

/-- `Direction` from src/dxf_process.rs. -/
inductive Direction where
  | CounterClockwise
  | Clockwise
  | Unknown
deriving DecidableEq

/-- `CIRCLE_ZERO_TOLERANCE` from src/dxf_process.rs (0.00001). -/
def CIRCLE_ZERO_TOLERANCE : ℝ := 1 / 100000

/-- `Circle::get_polar_radians` (src/dxf_process.rs:18-24): polar angle of
`point` about the centre, normalised to `[0, 2π)`. -/
def FitCircle.get_polar_radians (c : FitCircle) (point : Point) : ℝ :=
  let radians := atan2 (point.y - c.center.y) (point.x - c.center.x)
  if radians < 0 then 2 * Real.pi + radians else radians

/-- `Circle::get_radial_dist` (src/dxf_process.rs:26-35). -/
def FitCircle.get_radial_dist (c : FitCircle) (start_ end_ : Point) : ℝ :=
  let start_theta := c.get_polar_radians start_
  let end_theta := c.get_polar_radians end_
  let raw := |start_theta - end_theta|
  if raw > Real.pi then 2 * Real.pi - raw else raw

/-- `DxfConfig::make_circle` (src/dxf_process.rs:57-87): circumscribed circle
through three points via the determinant form, rejected when nearly
collinear or larger than `max_radius`. -/
def make_circle (cfg : DxfConfig) (p1 p2 p3 : Point) : Option FitCircle :=
  let a := p1.x * (p2.y - p3.y) - p1.y * (p2.x - p3.x) + p2.x * p3.y - p3.x * p2.y
  if |a| < CIRCLE_ZERO_TOLERANCE then none
  else
    let p1s := p1.x ^ 2 + p1.y ^ 2
    let p2s := p2.x ^ 2 + p2.y ^ 2
    let p3s := p3.x ^ 2 + p3.y ^ 2
    let b := p1s * (p3.y - p2.y) + p2s * (p1.y - p3.y) + p3s * (p2.y - p1.y)
    let c := p1s * (p2.x - p3.x) + p2s * (p3.x - p1.x) + p3s * (p1.x - p2.x)
    let center : Point := ⟨-b / (2 * a), -c / (2 * a)⟩
    let radius := center.dist p1
    if radius > cfg.max_radius then none
    else some ⟨center, radius⟩

/-- `DxfConfig::get_closest_perpendicular_point` (src/dxf_process.rs:90-102). -/
def get_closest_perpendicular_point (p1 p2 center : Point) : Option Point :=
  let num := (center.x - p1.x) * (p2.x - p1.x) + (center.y - p1.y) * (p2.y - p1.y)
  let denom := (p2.x - p1.x) ^ 2 + (p2.y - p1.y) ^ 2
  let t := num / denom
  if t ≤ CIRCLE_ZERO_TOLERANCE ∨ t ≥ 1 - CIRCLE_ZERO_TOLERANCE then none
  else some ⟨p1.x + t * (p2.x - p1.x), p1.y + t * (p2.y - p1.y)⟩

/-- `DxfConfig::make_arc` (src/dxf_process.rs:128-176).  The mutable
`direction` / swap sequence of the source is rendered as a `Direction`
value followed by the conditional swap; `angle_radians` is dead code in the
source (the length check using it is commented out) and `length` is unused. -/
def make_arc (circle : FitCircle) (start_ mid end_ : Point) (_length : ℝ) :
    Option FitArc :=
  let start_theta := circle.get_polar_radians start_
  let mid_theta := circle.get_polar_radians mid
  let end_theta := circle.get_polar_radians end_
  let direction : Direction :=
    if end_theta > start_theta then
      (if start_theta < mid_theta ∧ mid_theta < end_theta then .CounterClockwise
       else if (0 ≤ mid_theta ∧ mid_theta < start_theta) ∨
               (end_theta < mid_theta ∧ mid_theta < Real.pi * 2) then .Clockwise
       else .Unknown)
    else if start_theta > end_theta then
      (if (start_theta < mid_theta ∧ mid_theta < 2 * Real.pi) ∨
          (0 < mid_theta ∧ mid_theta < end_theta) then .CounterClockwise
       else if end_theta < mid_theta ∧ mid_theta < start_theta then .Clockwise
       else .Unknown)
    else .Unknown
  if direction = .Unknown then none
  else
    let st := if direction = .Clockwise then end_theta else start_theta
    let et := if direction = .Clockwise then start_theta else end_theta
    some ⟨circle.center, circle.radius, st * 360 / Real.pi / 2, et * 360 / Real.pi / 2⟩

/-- `DxfConfig::check_chain_circle` (src/dxf_process.rs:105-125).  The two
early-returning `for` loops are rendered as rejection conditions: some point
of `chain[1..]` is radially off by more than `resolution`, or some interior
perpendicular foot of a consecutive pair is. -/
def check_chain_circle (cfg : DxfConfig) (chain : List Point) (circle : FitCircle)
    (expected_length : ℝ) : Option FitArc :=
  if ∃ point ∈ chain.drop 1,
      |circle.radius - circle.center.dist point| > cfg.resolution then none
  else if ∃ pq ∈ chain.zip chain.tail,
      ∃ closest_point, get_closest_perpendicular_point pq.1 pq.2 circle.center =
          some closest_point ∧
        |circle.radius - circle.center.dist closest_point| > cfg.resolution then none
  else
    make_arc circle (chain.getD 0 ⟨0, 0⟩)
      (chain.getD ((chain.length - 2) / 2 + 1) ⟨0, 0⟩)
      (chain.getD (chain.length - 1) ⟨0, 0⟩) expected_length

/-- Errors returned through `Result` in the sources (`weld_err!` sites of
src/dxf_process.rs), kept structured instead of formatted strings. -/
inductive WeldError where
  | unsupportedEntity (e : Entity)
  | minSegmentsTooSmall
  | shortChain

/-- Outcome of running a piece of the fitter: `ok` / `err` mirror Rust's
`Result`; `panicked` models a `panic!` (including an out-of-bounds slice
index), which aborts instead of returning; `outOfFuel` is the embedding's
marker for exceeding the step budget of the loop (shown unreachable). -/
inductive Res (α : Type) where
  | ok (value : α)
  | err (e : WeldError)
  | panicked (msg : String)
  | outOfFuel

/-- Sum of the distances of consecutive pairs of `l`:
`l.windows(2).map(|p| p[0].dist(&p[1])).sum()`. -/
def sum_dists (l : List Point) : ℝ :=
  ((l.zip l.tail).map fun pq => pq.1.dist pq.2).sum

/-- `chain[lo..hi]` (Rust slice: elements at indices `lo, …, hi − 1`). -/
def slice (chain : List Point) (lo hi : ℕ) : List Point :=
  (chain.drop lo).take (hi - lo)

/-- The mutable state of `process_chain`'s main loop
(src/dxf_process.rs:212-215). -/
structure LoopState where
  entities : List Entity
  current_arc_start : ℕ
  current_arc_length : ℝ
  current_arc : Option FitArc
  i : ℕ

/-- Result of one iteration of the main loop: either the loop exits with an
outcome, or it continues with a new state. -/
inductive StepRes where
  | done (o : Res (List Entity))
  | next (s : LoopState)

/-- The window reset shared by the circle-closure and arc-flush branches
(src/dxf_process.rs:235-237 and 260-262): `current_arc_start ← cas`,
recompute `current_arc_length` over the fresh initial window, and
`i ← cas + min_segments − 1`. -/
def reset_state (cfg : DxfConfig) (chain : List Point) (ents : List Entity)
    (cas : ℕ) : LoopState :=
  { entities := ents,
    current_arc_start := cas,
    current_arc_length :=
      sum_dists (slice chain cas (min (cas + cfg.min_segments - 1) chain.length)),
    current_arc := none,
    i := cas + cfg.min_segments - 1 }

/-- The fail path with no live arc (src/dxf_process.rs:264-286 plus the
`i += 1` of line 288): emit the leading window segment as a `Line`, subtract
its length (clamped within `resolution`, panicking beyond it), advance
`current_arc_start`, and re-enter without advancing `i` when the remaining
window still spans `min_segments` segments. -/
def fail_step (cfg : DxfConfig) (chain : List Point) (s : LoopState) : StepRes :=
  let d : Point := ⟨0, 0⟩
  let dist := (chain.getD (s.i - 1) d).dist (chain.getD s.i d)
  let restart_pt := cfg.min_segments ≤ s.i - s.current_arc_start - 1
  let cal := if restart_pt then s.current_arc_length
             else s.current_arc_length + dist
  let ents := s.entities ++
    [Entity.Line (chain.getD s.current_arc_start d)
      (chain.getD (s.current_arc_start + 1) d)]
  let len := (chain.getD s.current_arc_start d).dist
    (chain.getD (s.current_arc_start + 1) d)
  if len > cal then
    if len < cal + cfg.resolution then
      .next { entities := ents,
              current_arc_start := s.current_arc_start + 1,
              current_arc_length := cal - cal,
              current_arc := none,
              i := if restart_pt then s.i else s.i + 1 }
    else
      .done (.panicked
        ("length of removed segment is longer than current arc length"))
  else
    .next { entities := ents,
            current_arc_start := s.current_arc_start + 1,
            current_arc_length := cal - len,
            current_arc := none,
            i := if restart_pt then s.i else s.i + 1 }

/-- The arc flush (src/dxf_process.rs:253-263): emit the live arc and reset
the window to start at `i − 1`. -/
def flush_step (cfg : DxfConfig) (chain : List Point) (s : LoopState)
    (arc : FitArc) : StepRes :=
  .next (reset_state cfg chain
    (s.entities ++
      [Entity.Arc arc.center arc.radius arc.start_angle arc.end_angle])
    (s.i - 1))

/-- Where control goes when the candidate of the current iteration is not
accepted: flush the live arc if any, else take the fail path. -/
def fallback_step (cfg : DxfConfig) (chain : List Point) (s : LoopState) :
    Option FitArc → StepRes
  | some arc => flush_step cfg chain s arc
  | none => fail_step cfg chain s

/-- Candidate growth (src/dxf_process.rs:241-251): `make_circle` on the
window endpoints and midpoint, `check_chain_circle` over the window, then
the radial-vs-chord distance test; on success the arc becomes current and
`i` advances, otherwise control falls through to `fallback_step`. -/
def grow_step (cfg : DxfConfig) (chain : List Point) (s : LoopState)
    (current_arc : Option FitArc) : StepRes :=
  let d : Point := ⟨0, 0⟩
  let last := chain.getD (s.i - 1) d
  let point := chain.getD s.i d
  let dist := last.dist point
  match make_circle cfg (chain.getD s.current_arc_start d)
      (chain.getD (s.current_arc_start + (s.i - s.current_arc_start - 2) / 2 + 1) d)
      point with
  | some circ =>
    match check_chain_circle cfg (slice chain s.current_arc_start (s.i + 1))
        circ (s.current_arc_length + dist) with
    | some arc =>
      let cdist := circ.get_radial_dist last point * circ.radius
      if |cdist - dist| < cfg.resolution then
        .next { s with current_arc_length := s.current_arc_length + dist,
                       current_arc := some arc,
                       i := s.i + 1 }
      else fallback_step cfg chain s current_arc
    | none => fallback_step cfg chain s current_arc
  | none => fallback_step cfg chain s current_arc

/-- One iteration of `process_chain`'s main `while` loop
(src/dxf_process.rs:216-289), together with the post-loop flush
(src/dxf_process.rs:290-301) taken when `i ≥ chain.len()`.

Translation notes, in source order: the `i < chain.len()` test; the
`current_arc_length < 0.0` panic; the fuzzy-equality skip; the circle-closure
branch (`if &chain[current_arc_start] == point` whose body fires only when
`current_arc.take()` yields an arc, so with `current_arc == None` control
falls through unchanged); then candidate growth / arc flush / fail path as
`grow_step` and `fallback_step`. -/
def loop_step (cfg : DxfConfig) (chain : List Point) (s : LoopState) : StepRes :=
  let n := chain.length
  let d : Point := ⟨0, 0⟩
  if n ≤ s.i then
    .done (.ok (match s.current_arc with
      | some arc =>
          s.entities ++ [Entity.Arc arc.center arc.radius arc.start_angle arc.end_angle]
      | none =>
          s.entities ++
            (((slice chain s.current_arc_start n).zip
                (slice chain s.current_arc_start n).tail).map fun pq =>
              Entity.Line pq.1 pq.2)))
  else if s.current_arc_length < 0 then
    .done (.panicked ("current_arc_length is smaller than 0.0"))
  else
    let last := chain.getD (s.i - 1) d
    let point := chain.getD s.i d
    if fuzzy_eq last point then .next { s with i := s.i + 1 }
    else
      match s.current_arc with
      | some arc =>
        if fuzzy_eq (chain.getD s.current_arc_start d) point then
          .next (reset_state cfg chain
            (s.entities ++ [Entity.Circle arc.center arc.radius]) (s.i + 1))
        else grow_step cfg chain s (some arc)
      | none => grow_step cfg chain s none

/-- Fuel-indexed iteration of `loop_step`.  The fuel is an upper bound on the
iteration count of the source's `while` loop; `process_chain` supplies a
budget that is proved sufficient, so `outOfFuel` is unreachable there. -/
def loop (cfg : DxfConfig) (chain : List Point) : ℕ → LoopState → Res (List Entity)
  | 0, _ => .outOfFuel
  | fuel + 1, s =>
    match loop_step cfg chain s with
    | .done o => o
    | .next s2 => loop cfg chain fuel s2

/-- The successive values of `current_arc_start` observed at each evaluation
of the loop head, for the monotone-progress statement. -/
def loop_as (cfg : DxfConfig) (chain : List Point) : ℕ → LoopState → List ℕ
  | 0, _ => []
  | fuel + 1, s =>
    s.current_arc_start ::
      (match loop_step cfg chain s with
       | .done _ => []
       | .next s2 => loop_as cfg chain fuel s2)

/-- The initial loop state of `process_chain` (src/dxf_process.rs:212-215). -/
def init_state (cfg : DxfConfig) (chain : List Point) : LoopState :=
  { entities := [],
    current_arc_start := 0,
    current_arc_length := sum_dists (slice chain 0 cfg.min_segments),
    current_arc := none,
    i := cfg.min_segments - 1 }

/-- Fuel budget used by the embedded `process_chain`. -/
def chain_fuel (cfg : DxfConfig) (chain : List Point) : ℕ :=
  (chain.length + 1) * (chain.length + cfg.min_segments + 1) + 1

/-- `DxfConfig::process_chain` (src/dxf_process.rs:178-304).  The slice
`chain[0..min_segments]` of line 213 panics in Rust when
`min_segments > chain.len()` (reachable only for `chain.len() ≥ 3`, after the
two early returns), which the embedding makes explicit. -/
def process_chain (cfg : DxfConfig) (chain : List Point) : Res (List Entity) :=
  if cfg.min_segments < 3 then .err .minSegmentsTooSmall
  else if chain.length < 2 then .err .shortChain
  else if chain.length = 2 then
    .ok [Entity.Line (chain.getD 0 ⟨0, 0⟩) (chain.getD 1 ⟨0, 0⟩)]
  else if chain.length < cfg.min_segments then
    .panicked ("range end index out of range for slice")
  else loop cfg chain (chain_fuel cfg chain) (init_state cfg chain)

/-- The `current_arc_start` trace of `process_chain` (empty when the main
loop is never entered). -/
def process_chain_as (cfg : DxfConfig) (chain : List Point) : List ℕ :=
  if cfg.min_segments < 3 then []
  else if chain.length < 2 then []
  else if chain.length = 2 then []
  else if chain.length < cfg.min_segments then []
  else loop_as cfg chain (chain_fuel cfg chain) (init_state cfg chain)

/-- Insertion into the successor map, modelling `BTreeMap::insert` on an
association list sorted by `Point.cmp` (equal keys are overwritten). -/
def insert_map : List (Point × Point) → Point → Point → List (Point × Point)
  | [], k, v => [(k, v)]
  | (k0, v0) :: rest, k, v =>
    match Point.cmp k k0 with
    | .lt => (k, v) :: (k0, v0) :: rest
    | .eq => (k, v) :: rest
    | .gt => (k0, v0) :: insert_map rest k v

/-- The entity pass of `process_drawing` (src/dxf_process.rs:310-317):
insert every `Line` into the successor map, failing on the first non-line. -/
def collect_lines : List Entity → List (Point × Point) →
    Except WeldError (List (Point × Point))
  | [], acc => .ok acc
  | Entity.Line p q :: rest, acc => collect_lines rest (insert_map acc p q)
  | e :: _, _ => .error (.unsupportedEntity e)

/-- `BTreeMap::remove(&k)`: find the entry whose key compares `Equal` to `k`,
returning its value and the map without it. -/
def find_remove : List (Point × Point) → Point → Option (Point × List (Point × Point))
  | [], _ => none
  | (k0, v0) :: rest, k =>
    if Point.cmp k k0 = Ordering.eq then some (v0, rest)
    else
      match find_remove rest k with
      | none => none
      | some (v, rest2) => some (v, (k0, v0) :: rest2)

theorem find_remove_length {m : List (Point × Point)} {k : Point}
    {v : Point} {m2 : List (Point × Point)} (h : find_remove m k = some (v, m2)) :
    m2.length + 1 = m.length := by
  induction m generalizing m2 with
  | nil => simp [find_remove] at h
  | cons hd tl ih =>
    rw [find_remove] at h
    by_cases hcmp : Point.cmp k hd.1 = Ordering.eq <;>
      [rw [if_pos hcmp] at h; rw [if_neg hcmp] at h]
    · obtain ⟨rfl, rfl⟩ : hd.2 = v ∧ tl = m2 := by simpa using h
      simp
    · rcases hfr : find_remove tl k with _ | ⟨v2, rest2⟩ <;> rw [hfr] at h
      · exact absurd h (by simp)
      · obtain ⟨rfl, rfl⟩ : v2 = v ∧ (hd.1, hd.2) :: rest2 = m2 := by
          simpa using h
        simpa using ih hfr

/-- The inner `while let Some(point) = src_dest.remove(&next)` loop of
`process_drawing` (src/dxf_process.rs:326-330): returns the chain tail
starting at `next` together with the remaining map. -/
def chain_from (m : List (Point × Point)) (next : Point) :
    List Point × List (Point × Point) :=
  match h : find_remove m next with
  | none => ([next], m)
  | some (point, m2) =>
    let r := chain_from m2 point
    (next :: r.1, r.2)
termination_by m.length
decreasing_by
  have := find_remove_length h
  omega

theorem chain_from_snd_length_le (m : List (Point × Point)) (next : Point) :
    (chain_from m next).2.length ≤ m.length := by
  generalize hlen : m.length = fuel
  induction fuel using Nat.strong_induction_on generalizing m next with
  | _ fuel ih =>
    rw [chain_from]
    rcases h : find_remove m next with _ | ⟨point, m2⟩
    · simpa using le_of_eq hlen
    · simp only
      have hl := find_remove_length h
      subst hlen
      exact le_trans (ih m2.length (by omega) m2 point rfl) (by omega)

/-- The chain-extraction loop of `process_drawing` (src/dxf_process.rs:319-336):
while the map is non-empty, pop the first (least-key) entry and follow
successors. -/
def build_chains (m : List (Point × Point)) : List (List Point) :=
  match m with
  | [] => []
  | (first_from, next) :: rest =>
    let r := chain_from rest next
    (first_from :: r.1) :: build_chains r.2
termination_by m.length
decreasing_by
  have := chain_from_snd_length_le rest next
  simp only [List.length_cons]
  omega

/-- The fitting pass of `process_drawing` (src/dxf_process.rs:338-341). -/
def process_chains (cfg : DxfConfig) : List (List Point) → List Entity →
    Res (List Entity)
  | [], acc => .ok acc
  | chain :: rest, acc =>
    match process_chain cfg chain with
    | .ok out => process_chains cfg rest (acc ++ out)
    | .err e => .err e
    | .panicked msg => .panicked msg
    | .outOfFuel => .outOfFuel

/-- `DxfConfig::process_drawing` (src/dxf_process.rs:306-345). -/
def process_drawing (cfg : DxfConfig) (d : Drawing) : Res Drawing :=
  match collect_lines d.entities [] with
  | .error e => .err e
  | .ok src_dest =>
    match process_chains cfg (build_chains src_dest) [] with
    | .ok es => .ok ⟨es⟩
    | .err e => .err e
    | .panicked msg => .panicked msg
    | .outOfFuel => .outOfFuel

/-! ## Helper lemmas about the point order -/

theorem point_cmp_eq_iff (a b : Point) :
    Point.cmp a b = Ordering.eq ↔ a.x = b.x ∧ a.y = b.y := by
  unfold Point.cmp
  rcases hx : compare a.x b.x with _ | _ | _
  · have hne : a.x ≠ b.x := (compare_lt_iff_lt.mp hx).ne
    simp [Ordering.then, hne]
  · have hxe : a.x = b.x := compare_eq_iff_eq.mp hx
    simp [Ordering.then, hxe, compare_eq_iff_eq]
  · have hne : a.x ≠ b.x := (compare_gt_iff_gt.mp hx).ne'
    simp [Ordering.then, hne]

/-! ## C2 -/

/-- C2 (corrected): the total order used as the successor-map key returns
`Equal` exactly on points whose coordinates are exactly equal — the
lexicographic comparison of src/dxf.rs:32-42 — and is therefore *not*
consistent with the fuzzy equality of src/dxf.rs:23-28. -/
theorem claim_C2_order_eq_iff_exact (a b : Point) :
    Point.cmp a b = Ordering.eq ↔ a.x = b.x ∧ a.y = b.y :=
  point_cmp_eq_iff a b

/-- C2 counterexample: `(0,0)` and `(1/200000, 0)` are fuzzy-equal
(both coordinate differences are below `1e-5`) yet the comparison does not
return `Equal`, refuting the claimed equivalence. -/
theorem claim_C2_counterexample :
    fuzzy_eq ⟨0, 0⟩ ⟨1 / 200000, 0⟩ ∧
      Point.cmp ⟨0, 0⟩ ⟨1 / 200000, 0⟩ ≠ Ordering.eq := by
  constructor
  · constructor <;> norm_num [POINT_PRECISION, abs_lt]
  · intro h
    have := (point_cmp_eq_iff _ _).mp h
    norm_num at this

/-! ## C5 -/

/-- C5 (confirmed): `make_circle` returns no circle exactly when the
determinant `a` satisfies `|a| < 1e-5` or the computed radius exceeds
`max_radius`; otherwise it returns the circle centred at
`(−b/(2a), −c/(2a))` whose radius is the distance from that centre to `p1`.
Three exactly collinear points have `a = 0`, hence `|a| < 1e-5`, hence no
circle — the "in particular" part of the claim is the first disjunct at
`a = 0`. -/
theorem claim_C5_make_circle_spec (cfg : DxfConfig) (p1 p2 p3 : Point) :
    make_circle cfg p1 p2 p3 =
      (let a := p1.x * (p2.y - p3.y) - p1.y * (p2.x - p3.x) +
          p2.x * p3.y - p3.x * p2.y
       let b := (p1.x ^ 2 + p1.y ^ 2) * (p3.y - p2.y) +
          (p2.x ^ 2 + p2.y ^ 2) * (p1.y - p3.y) +
          (p3.x ^ 2 + p3.y ^ 2) * (p2.y - p1.y)
       let c := (p1.x ^ 2 + p1.y ^ 2) * (p2.x - p3.x) +
          (p2.x ^ 2 + p2.y ^ 2) * (p3.x - p1.x) +
          (p3.x ^ 2 + p3.y ^ 2) * (p1.x - p2.x)
       let center : Point := ⟨-b / (2 * a), -c / (2 * a)⟩
       if |a| < 1 / 100000 ∨ center.dist p1 > cfg.max_radius then none
       else some ⟨center, center.dist p1⟩) := by
  simp only [make_circle, CIRCLE_ZERO_TOLERANCE]
  split_ifs with h1 h2 h3 <;> first | rfl | tauto

/-! ## C6 -/

theorem angle_deg_conv (t : ℝ) : t * 360 / Real.pi / 2 = t * (180 / Real.pi) := by
  have hpi : Real.pi ≠ 0 := Real.pi_ne_zero
  field_simp
  ring

/-- C6 (confirmed): `make_arc` resolves the direction by exactly the claimed
polar-angle case analysis, returns no arc in every other case (including
`θs = θe`), swaps start and end when clockwise, and emits the (possibly
swapped) angles converted to degrees by multiplying with `180/π`. -/
theorem claim_C6_make_arc_spec (circle : FitCircle) (start_ mid end_ : Point)
    (len : ℝ) :
    make_arc circle start_ mid end_ len =
      (let ts := circle.get_polar_radians start_
       let tm := circle.get_polar_radians mid
       let te := circle.get_polar_radians end_
       if te > ts then
         (if ts < tm ∧ tm < te then
            some ⟨circle.center, circle.radius, ts * (180 / Real.pi),
              te * (180 / Real.pi)⟩
          else if (0 ≤ tm ∧ tm < ts) ∨ (te < tm ∧ tm < 2 * Real.pi) then
            some ⟨circle.center, circle.radius, te * (180 / Real.pi),
              ts * (180 / Real.pi)⟩
          else none)
       else if ts > te then
         (if (ts < tm ∧ tm < 2 * Real.pi) ∨ (0 < tm ∧ tm < te) then
            some ⟨circle.center, circle.radius, ts * (180 / Real.pi),
              te * (180 / Real.pi)⟩
          else if te < tm ∧ tm < ts then
            some ⟨circle.center, circle.radius, te * (180 / Real.pi),
              ts * (180 / Real.pi)⟩
          else none)
       else none) := by
  simp only [make_arc]
  have h2 : Real.pi * 2 = 2 * Real.pi := by ring
  split_ifs <;> simp_all [angle_deg_conv, h2]

/-! ## Loop invariant, termination measure, and progress of `process_chain` -/

/-- Invariant of the main loop: the window always spans at least
`min_segments` points (`current_arc_start + min_segments ≤ i + 1`). -/
def loop_inv (cfg : DxfConfig) (s : LoopState) : Prop :=
  s.current_arc_start + cfg.min_segments ≤ s.i + 1

/-- Termination measure of the main loop: lexicographic in
(`n − current_arc_start`, `n + m − i`), packed into one natural number. -/
def loop_measure (cfg : DxfConfig) (chain : List Point) (s : LoopState) : ℕ :=
  (chain.length - s.current_arc_start) *
      (chain.length + cfg.min_segments + 1) +
    (chain.length + cfg.min_segments - s.i)

theorem measure_step_i {na C r2 r : ℕ} (h : r2 < r) :
    na * C + r2 < na * C + r := Nat.add_lt_add_left h _

theorem measure_step_a {na2 na C r2 r : ℕ} (h1 : na2 < na) (h2 : r2 < C) :
    na2 * C + r2 < na * C + r :=
  calc na2 * C + r2 < na2 * C + C := Nat.add_lt_add_left h2 _
    _ = (na2 + 1) * C := by ring
    _ ≤ na * C := Nat.mul_le_mul_right C h1
    _ ≤ na * C + r := Nat.le_add_right _ _

/-- Structure of the states the fail path can continue with. -/
theorem fail_step_next (cfg : DxfConfig) (chain : List Point) (s s2 : LoopState)
    (h : fail_step cfg chain s = .next s2) :
    s2.current_arc_start = s.current_arc_start + 1 ∧
      ((s2.i = s.i ∧ cfg.min_segments ≤ s.i - s.current_arc_start - 1) ∨
        s2.i = s.i + 1) := by
  unfold fail_step at h
  simp only [] at h
  by_cases hr : cfg.min_segments ≤ s.i - s.current_arc_start - 1
  · simp only [if_pos hr] at h
    split_ifs at h
    · obtain rfl : _ = s2 := by simpa using h
      simp [hr]
    · obtain rfl : _ = s2 := by simpa using h
      simp [hr]
  · simp only [if_neg hr] at h
    split_ifs at h
    · obtain rfl : _ = s2 := by simpa using h
      simp
    · obtain rfl : _ = s2 := by simpa using h
      simp

/-- Structure of the states `fallback_step` can continue with. -/
theorem fallback_step_next (cfg : DxfConfig) (chain : List Point)
    (s s2 : LoopState) (cur : Option FitArc)
    (h : fallback_step cfg chain s cur = .next s2) :
    (cur.isSome ∧ s2.current_arc_start = s.i - 1 ∧
        s2.i = s.i - 1 + cfg.min_segments - 1) ∨
      (cur = none ∧ s2.current_arc_start = s.current_arc_start + 1 ∧
        ((s2.i = s.i ∧ cfg.min_segments ≤ s.i - s.current_arc_start - 1) ∨
          s2.i = s.i + 1)) := by
  rcases cur with _ | arc
  · simp only [fallback_step] at h
    obtain ⟨h1, h2⟩ := fail_step_next cfg chain s s2 h
    exact Or.inr ⟨rfl, h1, h2⟩
  · simp only [fallback_step, flush_step, reset_state] at h
    obtain rfl : _ = s2 := by simpa using h
    exact Or.inl ⟨rfl, rfl, rfl⟩

/-- Structure of the states a whole `grow_step` can continue with:
acceptance, the arc flush, or the fail path. -/
theorem grow_step_next (cfg : DxfConfig) (chain : List Point) (s s2 : LoopState)
    (cur : Option FitArc) (h : grow_step cfg chain s cur = .next s2) :
    (s2.current_arc_start = s.current_arc_start ∧ s2.i = s.i + 1) ∨
      (cur.isSome ∧ s2.current_arc_start = s.i - 1 ∧
        s2.i = s.i - 1 + cfg.min_segments - 1) ∨
      (cur = none ∧ s2.current_arc_start = s.current_arc_start + 1 ∧
        ((s2.i = s.i ∧ cfg.min_segments ≤ s.i - s.current_arc_start - 1) ∨
          s2.i = s.i + 1)) := by
  unfold grow_step at h
  simp only [] at h
  rcases hmc : make_circle cfg (chain.getD s.current_arc_start ⟨0, 0⟩)
      (chain.getD (s.current_arc_start +
        (s.i - s.current_arc_start - 2) / 2 + 1) ⟨0, 0⟩)
      (chain.getD s.i ⟨0, 0⟩) with _ | circ <;> rw [hmc] at h <;>
    simp only [] at h
  · exact Or.inr (fallback_step_next cfg chain s s2 cur h)
  rcases hccc : check_chain_circle cfg (slice chain s.current_arc_start (s.i + 1))
      circ (s.current_arc_length +
        (chain.getD (s.i - 1) ⟨0, 0⟩).dist (chain.getD s.i ⟨0, 0⟩)) with _ | arc <;>
    rw [hccc] at h <;> simp only [] at h
  · exact Or.inr (fallback_step_next cfg chain s s2 cur h)
  split_ifs at h
  · obtain rfl : _ = s2 := by simpa using h
    exact Or.inl ⟨rfl, rfl⟩
  · exact Or.inr (fallback_step_next cfg chain s s2 cur h)

theorem step_arith {n m a i a2 i2 : ℕ} (hm : 3 ≤ m) (hinv : a + m ≤ i + 1)
    (hin : i < n)
    (hcase : (a2 = a ∧ i2 = i + 1) ∨
      (a2 = i - 1 ∧ i2 = i - 1 + m - 1) ∨
      (a2 = i + 1 ∧ i2 = i + 1 + m - 1) ∨
      (a2 = a + 1 ∧ ((i2 = i ∧ m ≤ i - a - 1) ∨ i2 = i + 1))) :
    a2 + m ≤ i2 + 1 ∧
      (n - a2) * (n + m + 1) + (n + m - i2) <
        (n - a) * (n + m + 1) + (n + m - i) ∧
      a ≤ a2 := by
  rcases hcase with ⟨rfl, rfl⟩ | ⟨rfl, rfl⟩ | ⟨rfl, rfl⟩ | ⟨rfl, hc2⟩
  · exact ⟨by omega, measure_step_i (by omega), le_rfl⟩
  · exact ⟨by omega, measure_step_a (by omega) (by omega), by omega⟩
  · exact ⟨by omega, measure_step_a (by omega) (by omega), by omega⟩
  · rcases hc2 with ⟨rfl, hr⟩ | rfl
    · exact ⟨by omega, measure_step_a (by omega) (by omega), by omega⟩
    · exact ⟨by omega, measure_step_a (by omega) (by omega), by omega⟩

/-- The structural case analysis of a continuing main-loop iteration:
skip/accept, arc flush, circle closure, or the fail path; in every case the
iteration happened with `i` inside the chain. -/
theorem loop_step_next_cases (cfg : DxfConfig) (chain : List Point)
    (s s2 : LoopState) (h : loop_step cfg chain s = .next s2) :
    s.i < chain.length ∧
      ((s2.current_arc_start = s.current_arc_start ∧ s2.i = s.i + 1) ∨
        (s2.current_arc_start = s.i - 1 ∧
          s2.i = s.i - 1 + cfg.min_segments - 1) ∨
        (s2.current_arc_start = s.i + 1 ∧
          s2.i = s.i + 1 + cfg.min_segments - 1) ∨
        (s2.current_arc_start = s.current_arc_start + 1 ∧
          ((s2.i = s.i ∧ cfg.min_segments ≤ s.i - s.current_arc_start - 1) ∨
            s2.i = s.i + 1))) := by
  unfold loop_step at h
  by_cases h1 : chain.length ≤ s.i
  · rw [if_pos h1] at h; exact absurd h (by simp)
  rw [if_neg h1] at h
  refine ⟨by omega, ?_⟩
  by_cases h2 : s.current_arc_length < 0
  · rw [if_pos h2] at h; exact absurd h (by simp)
  rw [if_neg h2] at h
  by_cases h3 : fuzzy_eq (chain.getD (s.i - 1) ⟨0, 0⟩) (chain.getD s.i ⟨0, 0⟩)
  · rw [if_pos h3] at h
    obtain rfl : _ = s2 := by simpa using h
    exact Or.inl ⟨rfl, rfl⟩
  rw [if_neg h3] at h
  rcases harc : s.current_arc with _ | arc <;> rw [harc] at h <;>
    simp only [] at h
  · rcases grow_step_next cfg chain s s2 none h with
      ⟨ha, hi⟩ | ⟨hs, _, _⟩ | ⟨_, ha, hi⟩
    · exact Or.inl ⟨ha, hi⟩
    · simp at hs
    · exact Or.inr (Or.inr (Or.inr ⟨ha, hi⟩))
  · by_cases h4 : fuzzy_eq (chain.getD s.current_arc_start ⟨0, 0⟩)
        (chain.getD s.i ⟨0, 0⟩)
    · rw [if_pos h4] at h
      obtain rfl : _ = s2 := by simpa using h
      exact Or.inr (Or.inr (Or.inl ⟨rfl, rfl⟩))
    · rw [if_neg h4] at h
      rcases grow_step_next cfg chain s s2 (some arc) h with
        ⟨ha, hi⟩ | ⟨_, ha, hi⟩ | ⟨hn2, _, _⟩
      · exact Or.inl ⟨ha, hi⟩
      · exact Or.inr (Or.inl ⟨ha, hi⟩)
      · simp at hn2

/-- Any continuing iteration of the main loop preserves the window invariant,
strictly decreases the termination measure, and never decreases
`current_arc_start`. -/
theorem loop_step_next (cfg : DxfConfig) (chain : List Point) (s s2 : LoopState)
    (hm : 3 ≤ cfg.min_segments) (hinv : loop_inv cfg s)
    (h : loop_step cfg chain s = .next s2) :
    loop_inv cfg s2 ∧
      loop_measure cfg chain s2 < loop_measure cfg chain s ∧
      s.current_arc_start ≤ s2.current_arc_start := by
  obtain ⟨hin, hcase⟩ := loop_step_next_cases cfg chain s s2 h
  exact step_arith hm hinv hin hcase

/-- The fail path only exits the loop through its panic. -/
theorem fail_step_done (cfg : DxfConfig) (chain : List Point) (s : LoopState)
    (o : Res (List Entity)) (h : fail_step cfg chain s = .done o) :
    ∃ msg, o = .panicked msg := by
  unfold fail_step at h
  simp only [] at h
  split_ifs at h
  all_goals
    obtain rfl : _ = o := by simpa using h
    exact ⟨_, rfl⟩

theorem fallback_step_done (cfg : DxfConfig) (chain : List Point) (s : LoopState)
    (cur : Option FitArc) (o : Res (List Entity))
    (h : fallback_step cfg chain s cur = .done o) :
    ∃ msg, o = .panicked msg := by
  rcases cur with _ | arc
  · exact fail_step_done cfg chain s o (by simpa [fallback_step] using h)
  · simp [fallback_step, flush_step] at h

theorem grow_step_done (cfg : DxfConfig) (chain : List Point) (s : LoopState)
    (cur : Option FitArc) (o : Res (List Entity))
    (h : grow_step cfg chain s cur = .done o) :
    ∃ msg, o = .panicked msg := by
  unfold grow_step at h
  simp only [] at h
  rcases hmc : make_circle cfg (chain.getD s.current_arc_start ⟨0, 0⟩)
      (chain.getD (s.current_arc_start +
        (s.i - s.current_arc_start - 2) / 2 + 1) ⟨0, 0⟩)
      (chain.getD s.i ⟨0, 0⟩) with _ | circ <;> rw [hmc] at h <;>
    simp only [] at h
  · exact fallback_step_done cfg chain s cur o h
  rcases hccc : check_chain_circle cfg (slice chain s.current_arc_start (s.i + 1))
      circ (s.current_arc_length +
        (chain.getD (s.i - 1) ⟨0, 0⟩).dist (chain.getD s.i ⟨0, 0⟩)) with _ | arc <;>
    rw [hccc] at h <;> simp only [] at h
  · exact fallback_step_done cfg chain s cur o h
  split_ifs at h
  exact fallback_step_done cfg chain s cur o h

/-- An iteration exits the loop only with an `ok` value (the post-loop flush)
or a panic — never with an `err` and never out of fuel. -/
theorem loop_step_done_shape (cfg : DxfConfig) (chain : List Point)
    (s : LoopState) (o : Res (List Entity)) (h : loop_step cfg chain s = .done o) :
    (∃ es, o = .ok es) ∨ ∃ msg, o = .panicked msg := by
  unfold loop_step at h
  simp only [] at h
  by_cases h1 : chain.length ≤ s.i
  · rw [if_pos h1] at h
    obtain rfl : _ = o := by simpa using h
    exact Or.inl ⟨_, rfl⟩
  rw [if_neg h1] at h
  by_cases h2 : s.current_arc_length < 0
  · rw [if_pos h2] at h
    obtain rfl : _ = o := by simpa using h
    exact Or.inr ⟨_, rfl⟩
  rw [if_neg h2] at h
  by_cases h3 : fuzzy_eq (chain.getD (s.i - 1) ⟨0, 0⟩) (chain.getD s.i ⟨0, 0⟩)
  · rw [if_pos h3] at h
    exact absurd h (by simp)
  rw [if_neg h3] at h
  rcases harc : s.current_arc with _ | arc <;> rw [harc] at h <;>
    simp only [] at h
  · exact Or.inr (grow_step_done cfg chain s none o h)
  · by_cases h4 : fuzzy_eq (chain.getD s.current_arc_start ⟨0, 0⟩)
        (chain.getD s.i ⟨0, 0⟩)
    · rw [if_pos h4] at h
      exact absurd h (by simp)
    · rw [if_neg h4] at h
      exact Or.inr (grow_step_done cfg chain s (some arc) o h)

/-- The embedded loop never returns a Rust `Err`: the source's `while` body
contains no `return Err(..)`. -/
theorem loop_ne_err (cfg : DxfConfig) (chain : List Point) :
    ∀ (fuel : ℕ) (s : LoopState) (e : WeldError), loop cfg chain fuel s ≠ .err e := by
  intro fuel
  induction fuel with
  | zero =>
    intro s e h
    rw [loop] at h
    exact Res.noConfusion h
  | succ f ih =>
    intro s e h
    rw [loop] at h
    rcases hs : loop_step cfg chain s with o | s2 <;> rw [hs] at h <;>
      simp only [] at h
    · rcases loop_step_done_shape cfg chain s o hs with ⟨es, rfl⟩ | ⟨msg, rfl⟩ <;>
        exact Res.noConfusion h
    · exact ih s2 e h

/-- With fuel above the termination measure the loop finishes. -/
theorem loop_ne_outOfFuel (cfg : DxfConfig) (chain : List Point)
    (hm : 3 ≤ cfg.min_segments) :
    ∀ (fuel : ℕ) (s : LoopState), loop_inv cfg s →
      loop_measure cfg chain s < fuel → loop cfg chain fuel s ≠ .outOfFuel := by
  intro fuel
  induction fuel with
  | zero => intro s _ hlt; exact absurd hlt (Nat.not_lt_zero _)
  | succ f ih =>
    intro s hinv hlt h
    rw [loop] at h
    rcases hs : loop_step cfg chain s with o | s2 <;> rw [hs] at h <;>
      simp only [] at h
    · rcases loop_step_done_shape cfg chain s o hs with ⟨es, rfl⟩ | ⟨msg, rfl⟩ <;>
        exact Res.noConfusion h
    · obtain ⟨hinv2, hdec, _⟩ := loop_step_next cfg chain s s2 hm hinv hs
      exact ih s2 hinv2 (by omega) h

/-- The recorded `current_arc_start` trace is sorted, and bounded below by
the starting value. -/
theorem loop_as_chain (cfg : DxfConfig) (chain : List Point)
    (hm : 3 ≤ cfg.min_segments) :
    ∀ (fuel : ℕ) (s : LoopState), loop_inv cfg s →
      List.Chain' (· ≤ ·) (loop_as cfg chain fuel s) ∧
        ∀ x ∈ loop_as cfg chain fuel s, s.current_arc_start ≤ x := by
  intro fuel
  induction fuel with
  | zero => intro s _; simp [loop_as]
  | succ f ih =>
    intro s hinv
    rw [loop_as]
    rcases hs : loop_step cfg chain s with o | s2
    · constructor
      · simp
      · intro x hx
        simp at hx
        omega
    · obtain ⟨hinv2, _, hmono⟩ := loop_step_next cfg chain s s2 hm hinv hs
      obtain ⟨hch, hall⟩ := ih s2 hinv2
      simp only []
      constructor
      · rw [List.chain'_cons']
        exact ⟨fun b hb => le_trans hmono (hall b (List.mem_of_mem_head? hb)), hch⟩
      · intro x hx
        rcases List.mem_cons.mp hx with rfl | hx2
        · exact le_rfl
        · exact le_trans hmono (hall x hx2)

theorem init_state_inv (cfg : DxfConfig) (chain : List Point)
    (hm : 3 ≤ cfg.min_segments) : loop_inv cfg (init_state cfg chain) := by
  simp only [loop_inv, init_state]
  omega

theorem init_state_measure (cfg : DxfConfig) (chain : List Point)
    (hm : 3 ≤ cfg.min_segments) :
    loop_measure cfg chain (init_state cfg chain) < chain_fuel cfg chain := by
  simp only [loop_measure, init_state, chain_fuel, Nat.sub_zero]
  have hexp : (chain.length + 1) * (chain.length + cfg.min_segments + 1) =
      chain.length * (chain.length + cfg.min_segments + 1) +
        (chain.length + cfg.min_segments + 1) := by ring
  omega

/-! ## C9 -/

/-- C9 (confirmed): for every chain and valid configuration, the fitter's
window start `current_arc_start` never decreases across iterations of the
main loop (the recorded trace is sorted), and the loop terminates within its
`O((n+1)·(n+m+1))` iteration budget, i.e. `process_chain` does not exhaust
its fuel. -/
theorem claim_C9_monotone_progress (cfg : DxfConfig) (chain : List Point)
    (hm : 3 ≤ cfg.min_segments) (hn : 2 ≤ chain.length) :
    process_chain cfg chain ≠ .outOfFuel ∧
      List.Chain' (· ≤ ·) (process_chain_as cfg chain) := by
  unfold process_chain process_chain_as
  split_ifs with h1 h2 h3 h4
  · exact absurd h1 (by omega)
  · exact absurd h2 (by omega)
  · exact ⟨fun hcon => Res.noConfusion hcon, by simp⟩
  · exact ⟨fun hcon => Res.noConfusion hcon, by simp⟩
  · exact ⟨loop_ne_outOfFuel cfg chain hm _ _ (init_state_inv cfg chain hm)
        (init_state_measure cfg chain hm),
      (loop_as_chain cfg chain hm _ _ (init_state_inv cfg chain hm)).1⟩

/-- C9 witness: a concrete two-point chain with the default configuration. -/
theorem claim_C9_witness :
    process_chain ⟨1 / 20, 100000, 3⟩ [⟨0, 0⟩, ⟨1, 0⟩] ≠ .outOfFuel ∧
      List.Chain' (· ≤ ·) (process_chain_as ⟨1 / 20, 100000, 3⟩ [⟨0, 0⟩, ⟨1, 0⟩]) :=
  claim_C9_monotone_progress ⟨1 / 20, 100000, 3⟩ [⟨0, 0⟩, ⟨1, 0⟩]
    (by norm_num) (by simp)

/-! ## C8 -/

/-- Whether an entity is a `Line` (the only variant `process_drawing`
accepts). -/
def Entity.is_line : Entity → Prop
  | .Line _ _ => True
  | _ => False

theorem collect_lines_ok_of_lines :
    ∀ (es : List Entity) (acc : List (Point × Point)),
      (∀ e ∈ es, e.is_line) → ∃ mp, collect_lines es acc = .ok mp := by
  intro es
  induction es with
  | nil => intro acc _; exact ⟨acc, rfl⟩
  | cons e rest ih =>
    intro acc hall
    rcases e with ⟨p, q⟩ | _ | _ | _
    · exact ih (insert_map acc p q) fun e2 he2 => hall e2 (List.mem_cons_of_mem _ he2)
    all_goals exact absurd (hall _ (List.mem_cons_self _ _)) (by simp [Entity.is_line])

theorem collect_lines_err_of_nonline :
    ∀ (es : List Entity) (acc : List (Point × Point)),
      (∃ e ∈ es, ¬ e.is_line) →
        ∃ e2, collect_lines es acc = .error (.unsupportedEntity e2) := by
  intro es
  induction es with
  | nil => intro acc h; simp at h
  | cons e rest ih =>
    intro acc hex
    rcases e with ⟨p, q⟩ | _ | _ | _
    · refine ih (insert_map acc p q) ?_
      obtain ⟨e2, he2, hnl⟩ := hex
      rcases List.mem_cons.mp he2 with rfl | hmem
      · exact absurd trivial hnl
      · exact ⟨e2, hmem, hnl⟩
    all_goals exact ⟨_, rfl⟩

theorem chain_from_fst_length (m : List (Point × Point)) (next : Point) :
    1 ≤ (chain_from m next).1.length := by
  rw [chain_from]
  rcases h : find_remove m next with _ | ⟨p, m2⟩ <;> simp

theorem build_chains_mem_length (m : List (Point × Point)) :
    ∀ c ∈ build_chains m, 2 ≤ c.length := by
  generalize hlen : m.length = fuel
  induction fuel using Nat.strong_induction_on generalizing m with
  | _ fuel ih =>
    rcases m with _ | ⟨⟨k, v⟩, rest⟩
    · rw [build_chains]; simp
    · rw [build_chains]
      intro c hc
      simp only [List.mem_cons] at hc
      rcases hc with rfl | hc2
      · have := chain_from_fst_length rest v
        simp only [List.length_cons]
        omega
      · have hle := chain_from_snd_length_le rest v
        subst hlen
        exact ih (chain_from rest v).2.length (by simp; omega) _ rfl c hc2

/-- With a valid configuration, `process_chain` on a chain of at least two
points never returns `Err`: its only error returns are the two guards. -/
theorem process_chain_ne_err (cfg : DxfConfig) (chain : List Point)
    (hm : 3 ≤ cfg.min_segments) (hn : 2 ≤ chain.length) (e : WeldError) :
    process_chain cfg chain ≠ .err e := by
  unfold process_chain
  split_ifs with h1 h2 h3 h4
  · exact absurd h1 (by omega)
  · exact absurd h2 (by omega)
  · exact fun hcon => Res.noConfusion hcon
  · exact fun hcon => Res.noConfusion hcon
  · exact loop_ne_err cfg chain _ _ e

theorem process_chains_ne_err (cfg : DxfConfig) (hm : 3 ≤ cfg.min_segments) :
    ∀ (chains : List (List Point)) (acc : List Entity) (e : WeldError),
      (∀ c ∈ chains, 2 ≤ c.length) → process_chains cfg chains acc ≠ .err e := by
  intro chains
  induction chains with
  | nil =>
    intro acc e _ h
    rw [process_chains] at h
    exact Res.noConfusion h
  | cons c rest ih =>
    intro acc e hlen h
    rw [process_chains] at h
    rcases hpc : process_chain cfg c with out | e2 | msg | _ <;> rw [hpc] at h <;>
      simp only [] at h
    · exact ih _ e (fun c2 hc2 => hlen c2 (List.mem_cons_of_mem _ hc2)) h
    · exact process_chain_ne_err cfg c hm (hlen c (List.mem_cons_self _ _)) e2 hpc
    · exact Res.noConfusion h
    · exact Res.noConfusion h

/-- C8 (corrected): with a valid configuration (`min_segments ≥ 3`),
`process_drawing` returns an error exactly when the input drawing contains a
non-`Line` entity (on all-line input it either succeeds or aborts in a
panic, but never returns an error).  Consequently, feeding a successful
output back in fails with the unsupported-input error exactly when that
output contains an `Arc` or `Circle` — an all-line output is welded again
without error. -/
theorem claim_C8_error_iff_nonline (cfg : DxfConfig) (d : Drawing)
    (hm : 3 ≤ cfg.min_segments) :
    (∃ e, process_drawing cfg d = .err e) ↔ ∃ ent ∈ d.entities, ¬ ent.is_line := by
  constructor
  · intro ⟨e, he⟩
    by_contra hnl
    push_neg at hnl
    obtain ⟨mp, hmp⟩ := collect_lines_ok_of_lines d.entities [] hnl
    unfold process_drawing at he
    rw [hmp] at he
    simp only [] at he
    rcases hpc : process_chains cfg (build_chains mp) [] with out | e2 | msg | _ <;>
      rw [hpc] at he <;> simp only [] at he
    · exact Res.noConfusion he
    · exact process_chains_ne_err cfg hm (build_chains mp) [] e2
        (build_chains_mem_length mp) hpc
    · exact Res.noConfusion he
    · exact Res.noConfusion he
  · intro hex
    obtain ⟨e2, he2⟩ := collect_lines_err_of_nonline d.entities [] hex
    refine ⟨.unsupportedEntity e2, ?_⟩
    unfold process_drawing
    rw [he2]

/-- C8 witness: a drawing containing a `Circle` with the default
configuration. -/
theorem claim_C8_witness :
    (∃ e, process_drawing ⟨1 / 20, 100000, 3⟩ ⟨[Entity.Circle ⟨0, 0⟩ 1]⟩ = .err e) ↔
      ∃ ent ∈ [Entity.Circle ⟨0, 0⟩ 1], ¬ ent.is_line :=
  claim_C8_error_iff_nonline ⟨1 / 20, 100000, 3⟩ ⟨[Entity.Circle ⟨0, 0⟩ 1]⟩
    (by norm_num)

/-- C8 counterexample to the claim as stated: a drawing holding one line is
welded successfully, and its output — itself — is welded again successfully
rather than failing with the unsupported-input error. -/
theorem claim_C8_counterexample :
    process_drawing ⟨1 / 20, 100000, 3⟩ ⟨[Entity.Line ⟨0, 0⟩ ⟨1, 0⟩]⟩ =
      .ok ⟨[Entity.Line ⟨0, 0⟩ ⟨1, 0⟩]⟩ := by
  have h1 : collect_lines [Entity.Line ⟨0, 0⟩ ⟨1, 0⟩] [] =
      .ok [((⟨0, 0⟩ : Point), (⟨1, 0⟩ : Point))] := by
    simp [collect_lines, insert_map]
  have h2 : chain_from ([] : List (Point × Point)) ⟨1, 0⟩ = ([⟨1, 0⟩], []) := by
    rw [chain_from]
    simp [find_remove]
  have h3 : build_chains [((⟨0, 0⟩ : Point), (⟨1, 0⟩ : Point))] =
      [[⟨0, 0⟩, ⟨1, 0⟩]] := by
    rw [build_chains, h2, build_chains]
  have h4 : process_chain ⟨1 / 20, 100000, 3⟩ [(⟨0, 0⟩ : Point), ⟨1, 0⟩] =
      .ok [Entity.Line ⟨0, 0⟩ ⟨1, 0⟩] := by
    unfold process_chain
    norm_num [List.getD]
  unfold process_drawing
  rw [h1]
  simp only []
  rw [h3, process_chains, h4]
  simp only [List.nil_append]
  rw [process_chains]

/-! ## Concrete-evaluation toolkit -/

theorem sqrt_two_sq : Real.sqrt 2 ^ 2 = 2 := Real.sq_sqrt (by norm_num)

theorem sqrt_two_gt : (1.41 : ℝ) < Real.sqrt 2 := by
  nlinarith [sqrt_two_sq, Real.sqrt_nonneg 2]

theorem sqrt_two_lt : Real.sqrt 2 < (1.42 : ℝ) := by
  nlinarith [sqrt_two_sq, Real.sqrt_nonneg 2]

/-- Evaluate `Point.dist` when the squared distance is a known square. -/
theorem dist_eval (a b : Point) (v : ℝ) (hv : 0 ≤ v)
    (h : (a.x - b.x) ^ 2 + (a.y - b.y) ^ 2 = v ^ 2) : a.dist b = v := by
  unfold Point.dist
  rw [h]
  exact Real.sqrt_sq hv

theorem make_circle_none_of_det (cfg : DxfConfig) (p1 p2 p3 : Point)
    (h : |p1.x * (p2.y - p3.y) - p1.y * (p2.x - p3.x) +
        p2.x * p3.y - p3.x * p2.y| < CIRCLE_ZERO_TOLERANCE) :
    make_circle cfg p1 p2 p3 = none := by
  unfold make_circle
  rw [if_pos h]

theorem loop_next_eq (cfg : DxfConfig) (chain : List Point) (fuel : ℕ)
    (s s2 : LoopState) (h : loop_step cfg chain s = .next s2) :
    loop cfg chain (fuel + 1) s = loop cfg chain fuel s2 := by
  rw [loop, h]

theorem loop_done_eq (cfg : DxfConfig) (chain : List Point) (fuel : ℕ)
    (s : LoopState) (o : Res (List Entity)) (h : loop_step cfg chain s = .done o) :
    loop cfg chain (fuel + 1) s = o := by
  rw [loop, h]

/-! ## C10: a chain on which the fitter's second panic fires

The chain walks from the origin by one long segment, then three segments
whose endpoints are fuzzy-equal (each coordinate steps by `99·10⁻⁷ < 10⁻⁵`),
then one just-not-fuzzy segment of length `10⁻⁵`.  The fuzzy-equality skips
advance `i` without adding the skipped distances to `current_arc_length`, so
after the fail path has consumed the two leading segments the accumulated
length (`0`) no longer covers the next segment's length `99·10⁻⁷·√2`, and
with `resolution = 10⁻⁹` the clamp fails: the source hits
`panic!("length of removed segment is longer than current arc length")`. -/

def r0 : Point := ⟨0, 0⟩

def r1 : Point := ⟨1 / 1000, 0⟩

def r2 : Point := ⟨10099 / 10 ^ 7, 99 / 10 ^ 7⟩

def r3 : Point := ⟨10198 / 10 ^ 7, 0⟩

def r4 : Point := ⟨10297 / 10 ^ 7, 99 / 10 ^ 7⟩

def r5 : Point := ⟨10397 / 10 ^ 7, 99 / 10 ^ 7⟩

def cfgP : DxfConfig := ⟨1 / 10 ^ 9, 100000, 3⟩

def chainP : List Point := [r0, r1, r2, r3, r4, r5]

def calP0 : ℝ := 1 / 1000 + 99 / 10 ^ 7 * Real.sqrt 2

def calP4 : ℝ := 99 / 10 ^ 7 * Real.sqrt 2

def sP0 : LoopState := ⟨[], 0, calP0, none, 2⟩

def sP1 : LoopState := ⟨[], 0, calP0, none, 3⟩

def sP2 : LoopState := ⟨[], 0, calP0, none, 4⟩

def sP3 : LoopState := ⟨[], 0, calP0, none, 5⟩

def sP4 : LoopState := ⟨[Entity.Line r0 r1], 1, calP4, none, 5⟩

def sP5 : LoopState := ⟨[Entity.Line r0 r1, Entity.Line r1 r2], 2, calP4 - calP4, none, 5⟩

theorem distP01 : r0.dist r1 = 1 / 1000 := by
  refine dist_eval _ _ _ (by norm_num) ?_
  simp only [r0, r1]
  norm_num

theorem distP12 : r1.dist r2 = 99 / 10 ^ 7 * Real.sqrt 2 := by
  refine dist_eval _ _ _ (by positivity) ?_
  simp only [r1, r2]
  linear_combination (-(99 / 10 ^ 7 : ℝ) ^ 2) * sqrt_two_sq

theorem distP23 : r2.dist r3 = 99 / 10 ^ 7 * Real.sqrt 2 := by
  refine dist_eval _ _ _ (by positivity) ?_
  simp only [r2, r3]
  linear_combination (-(99 / 10 ^ 7 : ℝ) ^ 2) * sqrt_two_sq

theorem distP45 : r4.dist r5 = 1 / 10 ^ 5 := by
  refine dist_eval _ _ _ (by norm_num) ?_
  simp only [r4, r5]
  norm_num

theorem fuzzyP12 : fuzzy_eq r1 r2 := by
  constructor <;> norm_num [r1, r2, POINT_PRECISION, abs_lt]

theorem fuzzyP23 : fuzzy_eq r2 r3 := by
  constructor <;> norm_num [r2, r3, POINT_PRECISION, abs_lt]

theorem fuzzyP34 : fuzzy_eq r3 r4 := by
  constructor <;> norm_num [r3, r4, POINT_PRECISION, abs_lt]

theorem not_fuzzyP45 : ¬ fuzzy_eq r4 r5 := by
  intro hcon
  have := hcon.1
  norm_num [r4, r5, POINT_PRECISION, abs_lt] at this

theorem mcP1 : make_circle cfgP r0 r2 r5 = none := by
  refine make_circle_none_of_det _ _ _ _ ?_
  norm_num [r0, r2, r5, CIRCLE_ZERO_TOLERANCE, abs_lt]

theorem mcP2 : make_circle cfgP r1 r3 r5 = none := by
  refine make_circle_none_of_det _ _ _ _ ?_
  norm_num [r1, r3, r5, CIRCLE_ZERO_TOLERANCE, abs_lt]

theorem mcP3 : make_circle cfgP r2 r3 r5 = none := by
  refine make_circle_none_of_det _ _ _ _ ?_
  norm_num [r2, r3, r5, CIRCLE_ZERO_TOLERANCE, abs_lt]

theorem calP0_nonneg : ¬ calP0 < 0 := by
  unfold calP0
  nlinarith [Real.sqrt_nonneg 2]

theorem stepP1 : loop_step cfgP chainP sP0 = .next sP1 := by
  unfold loop_step
  rw [if_neg (show ¬ chainP.length ≤ sP0.i by norm_num [chainP, sP0])]
  rw [if_neg (show ¬ sP0.current_arc_length < 0 from calP0_nonneg)]
  rw [if_pos (show fuzzy_eq (chainP.getD (sP0.i - 1) ⟨0, 0⟩)
      (chainP.getD sP0.i ⟨0, 0⟩) from fuzzyP12)]
  rfl

theorem stepP2 : loop_step cfgP chainP sP1 = .next sP2 := by
  unfold loop_step
  rw [if_neg (show ¬ chainP.length ≤ sP1.i by norm_num [chainP, sP1])]
  rw [if_neg (show ¬ sP1.current_arc_length < 0 from calP0_nonneg)]
  rw [if_pos (show fuzzy_eq (chainP.getD (sP1.i - 1) ⟨0, 0⟩)
      (chainP.getD sP1.i ⟨0, 0⟩) from fuzzyP23)]
  rfl

theorem stepP3 : loop_step cfgP chainP sP2 = .next sP3 := by
  unfold loop_step
  rw [if_neg (show ¬ chainP.length ≤ sP2.i by norm_num [chainP, sP2])]
  rw [if_neg (show ¬ sP2.current_arc_length < 0 from calP0_nonneg)]
  rw [if_pos (show fuzzy_eq (chainP.getD (sP2.i - 1) ⟨0, 0⟩)
      (chainP.getD sP2.i ⟨0, 0⟩) from fuzzyP34)]
  rfl

theorem stepP4 : loop_step cfgP chainP sP3 = .next sP4 := by
  unfold loop_step
  rw [if_neg (show ¬ chainP.length ≤ sP3.i by norm_num [chainP, sP3])]
  rw [if_neg (show ¬ sP3.current_arc_length < 0 from calP0_nonneg)]
  rw [if_neg (show ¬ fuzzy_eq (chainP.getD (sP3.i - 1) ⟨0, 0⟩)
      (chainP.getD sP3.i ⟨0, 0⟩) from not_fuzzyP45)]
  rw [show sP3.current_arc = none from rfl]
  simp only []
  unfold grow_step
  simp only []
  rw [show chainP.getD (sP3.current_arc_start +
      (sP3.i - sP3.current_arc_start - 2) / 2 + 1) ⟨0, 0⟩ = r2 from rfl]
  rw [show chainP.getD sP3.current_arc_start ⟨0, 0⟩ = r0 from rfl]
  rw [show chainP.getD sP3.i ⟨0, 0⟩ = r5 from rfl]
  rw [mcP1]
  simp only [fallback_step]
  unfold fail_step
  simp only []
  rw [show chainP.getD sP3.current_arc_start ⟨0, 0⟩ = r0 from rfl]
  rw [show chainP.getD (sP3.current_arc_start + 1) ⟨0, 0⟩ = r1 from rfl]
  rw [distP01]
  have hr : cfgP.min_segments ≤ sP3.i - sP3.current_arc_start - 1 := by
    norm_num [cfgP, sP3]
  simp only [if_pos hr]
  rw [if_neg (show ¬ (1 : ℝ) / 1000 > sP3.current_arc_length by
    rw [show sP3.current_arc_length = calP0 from rfl]
    unfold calP0
    nlinarith [Real.sqrt_nonneg 2])]
  refine congrArg StepRes.next ?_
  simp only [sP3, sP4, calP0, calP4, LoopState.mk.injEq, List.nil_append]
  norm_num

theorem stepP5 : loop_step cfgP chainP sP4 = .next sP5 := by
  unfold loop_step
  rw [if_neg (show ¬ chainP.length ≤ sP4.i by norm_num [chainP, sP4])]
  rw [if_neg (show ¬ sP4.current_arc_length < 0 by
    rw [show sP4.current_arc_length = calP4 from rfl]
    unfold calP4
    rw [not_lt]
    positivity)]
  rw [if_neg (show ¬ fuzzy_eq (chainP.getD (sP4.i - 1) ⟨0, 0⟩)
      (chainP.getD sP4.i ⟨0, 0⟩) from not_fuzzyP45)]
  rw [show sP4.current_arc = none from rfl]
  simp only []
  unfold grow_step
  simp only []
  rw [show chainP.getD (sP4.current_arc_start +
      (sP4.i - sP4.current_arc_start - 2) / 2 + 1) ⟨0, 0⟩ = r3 from rfl]
  rw [show chainP.getD sP4.current_arc_start ⟨0, 0⟩ = r1 from rfl]
  rw [show chainP.getD sP4.i ⟨0, 0⟩ = r5 from rfl]
  rw [mcP2]
  simp only [fallback_step]
  unfold fail_step
  simp only []
  rw [show chainP.getD sP4.current_arc_start ⟨0, 0⟩ = r1 from rfl]
  rw [show chainP.getD (sP4.current_arc_start + 1) ⟨0, 0⟩ = r2 from rfl]
  rw [distP12]
  have hr : cfgP.min_segments ≤ sP4.i - sP4.current_arc_start - 1 := by
    norm_num [cfgP, sP4]
  simp only [if_pos hr]
  rw [if_neg (show ¬ (99 : ℝ) / 10 ^ 7 * Real.sqrt 2 > sP4.current_arc_length by
    rw [show sP4.current_arc_length = calP4 from rfl]
    unfold calP4
    exact lt_irrefl _)]
  refine congrArg StepRes.next ?_
  simp only [sP4, sP5, calP4, LoopState.mk.injEq]
  norm_num

theorem stepP6 : loop_step cfgP chainP sP5 =
    .done (.panicked ("length of removed segment is longer than current arc length")) := by
  unfold loop_step
  rw [if_neg (show ¬ chainP.length ≤ sP5.i by norm_num [chainP, sP5])]
  rw [if_neg (show ¬ sP5.current_arc_length < 0 by
    rw [show sP5.current_arc_length = calP4 - calP4 from rfl, sub_self]
    norm_num)]
  rw [if_neg (show ¬ fuzzy_eq (chainP.getD (sP5.i - 1) ⟨0, 0⟩)
      (chainP.getD sP5.i ⟨0, 0⟩) from not_fuzzyP45)]
  rw [show sP5.current_arc = none from rfl]
  simp only []
  unfold grow_step
  simp only []
  rw [show chainP.getD (sP5.current_arc_start +
      (sP5.i - sP5.current_arc_start - 2) / 2 + 1) ⟨0, 0⟩ = r3 from rfl]
  rw [show chainP.getD sP5.current_arc_start ⟨0, 0⟩ = r2 from rfl]
  rw [show chainP.getD sP5.i ⟨0, 0⟩ = r5 from rfl]
  rw [mcP3]
  simp only [fallback_step]
  unfold fail_step
  simp only []
  rw [show chainP.getD (sP5.i - 1) ⟨0, 0⟩ = r4 from rfl]
  rw [show chainP.getD sP5.i ⟨0, 0⟩ = r5 from rfl]
  rw [distP45]
  rw [show chainP.getD sP5.current_arc_start ⟨0, 0⟩ = r2 from rfl]
  rw [show chainP.getD (sP5.current_arc_start + 1) ⟨0, 0⟩ = r3 from rfl]
  rw [distP23]
  have hr : ¬ cfgP.min_segments ≤ sP5.i - sP5.current_arc_start - 1 := by
    norm_num [cfgP, sP5]
  simp only [if_neg hr]
  rw [if_pos (show (99 : ℝ) / 10 ^ 7 * Real.sqrt 2 >
      sP5.current_arc_length + 1 / 10 ^ 5 by
    rw [show sP5.current_arc_length = calP4 - calP4 from rfl, sub_self]
    nlinarith [sqrt_two_gt])]
  rw [if_neg (show ¬ (99 : ℝ) / 10 ^ 7 * Real.sqrt 2 <
      sP5.current_arc_length + 1 / 10 ^ 5 + cfgP.resolution by
    rw [show sP5.current_arc_length = calP4 - calP4 from rfl, sub_self,
      show cfgP.resolution = 1 / 10 ^ 9 from rfl]
    nlinarith [sqrt_two_gt])]

/-- C10: evaluating the embedded `process_chain` on the failing input — a
six-point chain with three interior fuzzy-equal steps and
`resolution = 10⁻⁹` — reaches the source's second `panic!`
(src/dxf_process.rs:278), so the abort branch is reachable and the claim
that it is unreachable is wrong about the code. -/
theorem claim_C10_panic_reachable :
    process_chain cfgP chainP =
      .panicked ("length of removed segment is longer than current arc length") := by
  have hsum : sum_dists (slice chainP 0 cfgP.min_segments) = calP0 := by
    rw [show slice chainP 0 cfgP.min_segments = [r0, r1, r2] from rfl]
    unfold sum_dists
    simp only [List.zip, List.zipWith, List.tail, List.map, List.sum_cons,
      List.sum_nil]
    rw [distP01, distP12]
    unfold calP0
    ring
  have hinit : init_state cfgP chainP = sP0 := by
    unfold init_state sP0
    rw [hsum]
    rfl
  have hfuel : chain_fuel cfgP chainP = 71 := by
    norm_num [chain_fuel, chainP, cfgP]
  unfold process_chain
  rw [if_neg (show ¬ cfgP.min_segments < 3 by norm_num [cfgP])]
  rw [if_neg (show ¬ chainP.length < 2 by norm_num [chainP])]
  rw [if_neg (show ¬ chainP.length = 2 by norm_num [chainP])]
  rw [if_neg (show ¬ chainP.length < cfgP.min_segments by norm_num [chainP, cfgP])]
  rw [hfuel, hinit]
  calc loop cfgP chainP 71 sP0
      = loop cfgP chainP 70 sP1 := loop_next_eq cfgP chainP 70 sP0 sP1 stepP1
    _ = loop cfgP chainP 69 sP2 := loop_next_eq cfgP chainP 69 sP1 sP2 stepP2
    _ = loop cfgP chainP 68 sP3 := loop_next_eq cfgP chainP 68 sP2 sP3 stepP3
    _ = loop cfgP chainP 67 sP4 := loop_next_eq cfgP chainP 67 sP3 sP4 stepP4
    _ = loop cfgP chainP 66 sP5 := loop_next_eq cfgP chainP 66 sP4 sP5 stepP5
    _ = .panicked ("length of removed segment is longer than current arc length") :=
        loop_done_eq cfgP chainP 65 sP5 _ stepP6

/-! ## atan2 and polar-angle evaluations -/

theorem atan2_zero_pos (x : ℝ) (hx : 0 < x) : atan2 0 x = 0 := by
  unfold atan2
  rw [if_pos hx]
  simp [Real.arctan_zero]

theorem atan2_pos_diag (t : ℝ) (ht : 0 < t) : atan2 t t = Real.pi / 4 := by
  unfold atan2
  rw [if_pos ht, div_self ht.ne']
  exact Real.arctan_one

theorem atan2_pos_zero (y : ℝ) (hy : 0 < y) : atan2 y 0 = Real.pi / 2 := by
  unfold atan2
  rw [if_neg (lt_irrefl 0), if_neg (lt_irrefl 0), if_pos hy]

theorem atan2_neg_diag (t : ℝ) (ht : 0 < t) :
    atan2 (-t) (-t) = Real.pi / 4 - Real.pi := by
  unfold atan2
  rw [if_neg (by linarith), if_pos (by linarith : -t < 0),
    if_neg (by linarith : ¬ 0 ≤ -t), neg_div_neg_eq, div_self ht.ne',
    Real.arctan_one]

/-! ## C4: a chain of exactly `min_segments` points that emits an arc

Three points on the unit circle at polar angles `0`, `π/4`, `π/2`, with
`resolution = 0.1`: the single loop iteration accepts the candidate arc and
the post-loop flush emits it. -/

def q0 : Point := ⟨1, 0⟩

def q1 : Point := ⟨Real.sqrt 2 / 2, Real.sqrt 2 / 2⟩

def q2 : Point := ⟨0, 1⟩

def qcfg : DxfConfig := ⟨1 / 10, 100000, 3⟩

def qchain : List Point := [q0, q1, q2]

def circ1 : FitCircle := ⟨⟨0, 0⟩, 1⟩

def arcQ : FitArc := ⟨⟨0, 0⟩, 1, 0, 90⟩

theorem sqrt_two_half_pos : (0 : ℝ) < Real.sqrt 2 / 2 := by
  nlinarith [sqrt_two_gt]

theorem polar_q0 : circ1.get_polar_radians q0 = 0 := by
  unfold FitCircle.get_polar_radians
  rw [show q0.y - circ1.center.y = (0 : ℝ) by norm_num [q0, circ1]]
  rw [show q0.x - circ1.center.x = (1 : ℝ) by norm_num [q0, circ1]]
  rw [atan2_zero_pos 1 one_pos]
  rw [if_neg (lt_irrefl 0)]

theorem polar_q1 : circ1.get_polar_radians q1 = Real.pi / 4 := by
  unfold FitCircle.get_polar_radians
  rw [show q1.y - circ1.center.y = Real.sqrt 2 / 2 by norm_num [q1, circ1]]
  rw [show q1.x - circ1.center.x = Real.sqrt 2 / 2 by norm_num [q1, circ1]]
  rw [atan2_pos_diag _ sqrt_two_half_pos]
  rw [if_neg (by rw [not_lt]; positivity)]

theorem polar_q2 : circ1.get_polar_radians q2 = Real.pi / 2 := by
  unfold FitCircle.get_polar_radians
  rw [show q2.y - circ1.center.y = (1 : ℝ) by norm_num [q2, circ1]]
  rw [show q2.x - circ1.center.x = (0 : ℝ) by norm_num [q2, circ1]]
  rw [atan2_pos_zero 1 one_pos]
  rw [if_neg (by rw [not_lt]; positivity)]

theorem make_circle_q : make_circle qcfg q0 q1 q2 = some circ1 := by
  unfold make_circle
  simp only []
  have hA : q0.x * (q1.y - q2.y) - q0.y * (q1.x - q2.x) +
      q1.x * q2.y - q2.x * q1.y = Real.sqrt 2 - 1 := by
    simp only [q0, q1, q2]
    ring
  rw [hA]
  rw [if_neg (show ¬ |Real.sqrt 2 - 1| < CIRCLE_ZERO_TOLERANCE by
    rw [abs_of_nonneg (by nlinarith [sqrt_two_gt]), CIRCLE_ZERO_TOLERANCE]
    nlinarith [sqrt_two_gt])]
  have hB : (q0.x ^ 2 + q0.y ^ 2) * (q2.y - q1.y) +
      (q1.x ^ 2 + q1.y ^ 2) * (q0.y - q2.y) +
      (q2.x ^ 2 + q2.y ^ 2) * (q1.y - q0.y) = 0 := by
    simp only [q0, q1, q2]
    linear_combination (-1 / 2 : ℝ) * sqrt_two_sq
  have hC : (q0.x ^ 2 + q0.y ^ 2) * (q1.x - q2.x) +
      (q1.x ^ 2 + q1.y ^ 2) * (q2.x - q0.x) +
      (q2.x ^ 2 + q2.y ^ 2) * (q0.x - q1.x) = 0 := by
    simp only [q0, q1, q2]
    linear_combination (-1 / 2 : ℝ) * sqrt_two_sq
  rw [hB, hC]
  have hrad : Point.dist ⟨-(0 : ℝ) / (2 * (Real.sqrt 2 - 1)),
      -(0 : ℝ) / (2 * (Real.sqrt 2 - 1))⟩ q0 = 1 := by
    refine dist_eval _ _ _ (by norm_num) ?_
    simp only [q0]
    norm_num
  rw [hrad]
  rw [if_neg (show ¬ (1 : ℝ) > qcfg.max_radius by norm_num [qcfg])]
  simp only [circ1, Option.some.injEq, FitCircle.mk.injEq, Point.mk.injEq]
  norm_num

def footA : Point := ⟨(2 + Real.sqrt 2) / 4, Real.sqrt 2 / 4⟩

def footB : Point := ⟨Real.sqrt 2 / 4, (2 + Real.sqrt 2) / 4⟩

theorem perp_q01 : get_closest_perpendicular_point q0 q1 circ1.center = some footA := by
  unfold get_closest_perpendicular_point
  simp only []
  have hden : (q1.x - q0.x) ^ 2 + (q1.y - q0.y) ^ 2 = 2 - Real.sqrt 2 := by
    simp only [q0, q1]
    linear_combination (1 / 2 : ℝ) * sqrt_two_sq
  have ht : ((circ1.center.x - q0.x) * (q1.x - q0.x) +
      (circ1.center.y - q0.y) * (q1.y - q0.y)) /
        ((q1.x - q0.x) ^ 2 + (q1.y - q0.y) ^ 2) = 1 / 2 := by
    rw [hden, div_eq_iff (by nlinarith [sqrt_two_lt])]
    simp only [q0, q1, circ1]
    ring
  rw [ht]
  rw [if_neg (by norm_num [CIRCLE_ZERO_TOLERANCE])]
  simp only [footA, Option.some.injEq, Point.mk.injEq]
  constructor <;> (simp only [q0, q1, circ1]; ring)

theorem perp_q12 : get_closest_perpendicular_point q1 q2 circ1.center = some footB := by
  unfold get_closest_perpendicular_point
  simp only []
  have hden : (q2.x - q1.x) ^ 2 + (q2.y - q1.y) ^ 2 = 2 - Real.sqrt 2 := by
    simp only [q1, q2]
    linear_combination (1 / 2 : ℝ) * sqrt_two_sq
  have ht : ((circ1.center.x - q1.x) * (q2.x - q1.x) +
      (circ1.center.y - q1.y) * (q2.y - q1.y)) /
        ((q2.x - q1.x) ^ 2 + (q2.y - q1.y) ^ 2) = 1 / 2 := by
    rw [hden, div_eq_iff (by nlinarith [sqrt_two_lt])]
    simp only [q1, q2, circ1]
    linear_combination (1 / 2 : ℝ) * sqrt_two_sq
  rw [ht]
  rw [if_neg (by norm_num [CIRCLE_ZERO_TOLERANCE])]
  simp only [footB, Option.some.injEq, Point.mk.injEq]
  constructor <;> (simp only [q1, q2, circ1]; ring)

theorem dist_c_q1 : circ1.center.dist q1 = 1 := by
  refine dist_eval _ _ _ (by norm_num) ?_
  simp only [circ1, q1]
  linear_combination (1 / 2 : ℝ) * sqrt_two_sq

theorem dist_c_q2 : circ1.center.dist q2 = 1 := by
  refine dist_eval _ _ _ (by norm_num) ?_
  simp only [circ1, q2]
  norm_num

theorem dist_c_footA : circ1.center.dist footA = Real.sqrt ((2 + Real.sqrt 2) / 4) := by
  unfold Point.dist
  congr 1
  simp only [circ1, footA]
  linear_combination (1 / 8 : ℝ) * sqrt_two_sq

theorem dist_c_footB : circ1.center.dist footB = Real.sqrt ((2 + Real.sqrt 2) / 4) := by
  unfold Point.dist
  congr 1
  simp only [circ1, footB]
  linear_combination (1 / 8 : ℝ) * sqrt_two_sq

theorem foot_residual_small : |(1 : ℝ) - Real.sqrt ((2 + Real.sqrt 2) / 4)| ≤ 1 / 10 := by
  have hnn : (0 : ℝ) ≤ (2 + Real.sqrt 2) / 4 := by positivity
  have hsq : Real.sqrt ((2 + Real.sqrt 2) / 4) ^ 2 = (2 + Real.sqrt 2) / 4 :=
    Real.sq_sqrt hnn
  have h0 : (0 : ℝ) ≤ Real.sqrt ((2 + Real.sqrt 2) / 4) := Real.sqrt_nonneg _
  rw [abs_le]
  constructor <;> nlinarith [sqrt_two_gt, sqrt_two_lt]

theorem make_arc_q (L : ℝ) : make_arc circ1 q0 q1 q2 L = some arcQ := by
  unfold make_arc
  simp only []
  rw [polar_q0, polar_q1, polar_q2]
  rw [if_pos (show Real.pi / 2 > 0 by positivity)]
  rw [if_pos (show 0 < Real.pi / 4 ∧ Real.pi / 4 < Real.pi / 2 by
    constructor
    · positivity
    · linarith [Real.pi_pos])]
  rw [if_neg (show ¬ Direction.CounterClockwise = Direction.Unknown by decide)]
  rw [if_neg (show ¬ Direction.CounterClockwise = Direction.Clockwise by decide)]
  rw [if_neg (show ¬ Direction.CounterClockwise = Direction.Clockwise by decide)]
  simp only [arcQ, Option.some.injEq, FitArc.mk.injEq]
  refine ⟨rfl, rfl, by norm_num, ?_⟩
  have hpi : Real.pi ≠ 0 := Real.pi_ne_zero
  rw [angle_deg_conv]
  field_simp
  ring

theorem check_chain_q (L : ℝ) :
    check_chain_circle qcfg [q0, q1, q2] circ1 L = some arcQ := by
  unfold check_chain_circle
  rw [if_neg ?hrad]
  case hrad =>
    intro ⟨point, hpt, hgt⟩
    simp only [List.drop, List.mem_cons, List.not_mem_nil, or_false] at hpt
    rcases hpt with rfl | rfl
    · rw [dist_c_q1] at hgt
      norm_num [qcfg, circ1] at hgt
    · rw [dist_c_q2] at hgt
      norm_num [qcfg, circ1] at hgt
  rw [if_neg ?hfoot]
  case hfoot =>
    intro ⟨pq, hpq, cp, hcp, hgt⟩
    simp only [List.zip, List.zipWith, List.tail, List.mem_cons,
      List.not_mem_nil, or_false] at hpq
    rcases hpq with rfl | rfl
    · rw [perp_q01] at hcp
      obtain rfl : footA = cp := by simpa using hcp
      rw [dist_c_footA] at hgt
      have := foot_residual_small
      rw [show circ1.radius = (1 : ℝ) from rfl] at hgt
      rw [show qcfg.resolution = (1 : ℝ) / 10 from rfl] at hgt
      exact absurd hgt (not_lt.mpr this)
    · rw [perp_q12] at hcp
      obtain rfl : footB = cp := by simpa using hcp
      rw [dist_c_footB] at hgt
      have := foot_residual_small
      rw [show circ1.radius = (1 : ℝ) from rfl] at hgt
      rw [show qcfg.resolution = (1 : ℝ) / 10 from rfl] at hgt
      exact absurd hgt (not_lt.mpr this)
  rw [show ([q0, q1, q2].getD 0 ⟨0, 0⟩) = q0 from rfl]
  rw [show ([q0, q1, q2].getD (([q0, q1, q2].length - 2) / 2 + 1) ⟨0, 0⟩) = q1 from rfl]
  rw [show ([q0, q1, q2].getD ([q0, q1, q2].length - 1) ⟨0, 0⟩) = q2 from rfl]
  exact make_arc_q L

theorem radial_q12 : circ1.get_radial_dist q1 q2 = Real.pi / 4 := by
  unfold FitCircle.get_radial_dist
  simp only []
  rw [polar_q1, polar_q2]
  rw [show |Real.pi / 4 - Real.pi / 2| = Real.pi / 4 by
    rw [abs_of_nonpos (by linarith [Real.pi_pos])]
    ring]
  rw [if_neg (by linarith [Real.pi_pos])]

theorem dist_q01 : q0.dist q1 = Real.sqrt (2 - Real.sqrt 2) := by
  unfold Point.dist
  congr 1
  simp only [q0, q1]
  linear_combination (1 / 2 : ℝ) * sqrt_two_sq

theorem dist_q12 : q1.dist q2 = Real.sqrt (2 - Real.sqrt 2) := by
  unfold Point.dist
  congr 1
  simp only [q1, q2]
  linear_combination (1 / 2 : ℝ) * sqrt_two_sq

theorem radial_residual_small :
    |Real.pi / 4 - Real.sqrt (2 - Real.sqrt 2)| < 1 / 10 := by
  have hnn : (0 : ℝ) ≤ 2 - Real.sqrt 2 := by nlinarith [sqrt_two_lt]
  have hsq : Real.sqrt (2 - Real.sqrt 2) ^ 2 = 2 - Real.sqrt 2 := Real.sq_sqrt hnn
  have h0 : (0 : ℝ) ≤ Real.sqrt (2 - Real.sqrt 2) := Real.sqrt_nonneg _
  rw [abs_lt]
  constructor <;>
    nlinarith [Real.pi_gt_d6, Real.pi_lt_d2, sqrt_two_gt, sqrt_two_lt]

theorem not_fuzzy_q12 : ¬ fuzzy_eq q1 q2 := by
  intro hcon
  have h1 := hcon.1
  simp only [q1, q2, POINT_PRECISION] at h1
  rw [show Real.sqrt 2 / 2 - 0 = Real.sqrt 2 / 2 by ring,
    abs_of_nonneg (by positivity)] at h1
  nlinarith [sqrt_two_gt]

def calQ0 : ℝ := Real.sqrt (2 - Real.sqrt 2) + (Real.sqrt (2 - Real.sqrt 2) + 0)

def sQ0 : LoopState := ⟨[], 0, calQ0, none, 2⟩

def sQ1 : LoopState :=
  ⟨[], 0, calQ0 + Real.sqrt (2 - Real.sqrt 2), some arcQ, 3⟩

theorem stepQ1 : loop_step qcfg qchain sQ0 = .next sQ1 := by
  unfold loop_step
  rw [if_neg (show ¬ qchain.length ≤ sQ0.i by norm_num [qchain, sQ0])]
  rw [if_neg (show ¬ sQ0.current_arc_length < 0 by
    rw [show sQ0.current_arc_length = calQ0 from rfl, not_lt]
    unfold calQ0
    positivity)]
  rw [if_neg (show ¬ fuzzy_eq (qchain.getD (sQ0.i - 1) ⟨0, 0⟩)
      (qchain.getD sQ0.i ⟨0, 0⟩) from not_fuzzy_q12)]
  rw [show sQ0.current_arc = none from rfl]
  simp only []
  unfold grow_step
  simp only []
  rw [show qchain.getD (sQ0.current_arc_start +
      (sQ0.i - sQ0.current_arc_start - 2) / 2 + 1) ⟨0, 0⟩ = q1 from rfl]
  rw [show qchain.getD sQ0.current_arc_start ⟨0, 0⟩ = q0 from rfl]
  rw [show qchain.getD sQ0.i ⟨0, 0⟩ = q2 from rfl]
  rw [show qchain.getD (sQ0.i - 1) ⟨0, 0⟩ = q1 from rfl]
  rw [make_circle_q]
  simp only []
  rw [show slice qchain sQ0.current_arc_start (sQ0.i + 1) = [q0, q1, q2] from rfl]
  rw [check_chain_q]
  simp only []
  rw [radial_q12, dist_q12]
  rw [show circ1.radius = (1 : ℝ) from rfl, mul_one]
  rw [if_pos (show |Real.pi / 4 - Real.sqrt (2 - Real.sqrt 2)| < qcfg.resolution
    from radial_residual_small)]
  refine congrArg StepRes.next ?_
  simp only [sQ0, sQ1, LoopState.mk.injEq]

theorem stepQ2 : loop_step qcfg qchain sQ1 =
    .done (.ok [Entity.Arc ⟨0, 0⟩ 1 0 90]) := by
  unfold loop_step
  rw [if_pos (show qchain.length ≤ sQ1.i by norm_num [qchain, sQ1])]
  rfl

/-- C4 counterexample: a chain of exactly `min_segments` points
(`min_segments − 1` segments) — three points on the unit circle with
`resolution = 0.1` — on which `process_chain` emits an `Arc`. -/
theorem claim_C4_counterexample :
    qchain.length = qcfg.min_segments ∧
      process_chain qcfg qchain = .ok [Entity.Arc ⟨0, 0⟩ 1 0 90] := by
  refine ⟨rfl, ?_⟩
  have hsum : sum_dists (slice qchain 0 qcfg.min_segments) = calQ0 := by
    rw [show slice qchain 0 qcfg.min_segments = [q0, q1, q2] from rfl]
    unfold sum_dists
    simp only [List.zip, List.zipWith, List.tail, List.map, List.sum_cons,
      List.sum_nil]
    rw [dist_q01, dist_q12]
    unfold calQ0
    ring
  have hinit : init_state qcfg qchain = sQ0 := by
    unfold init_state sQ0
    rw [hsum]
    rfl
  have hfuel : chain_fuel qcfg qchain = 29 := by
    norm_num [chain_fuel, qchain, qcfg]
  unfold process_chain
  rw [if_neg (show ¬ qcfg.min_segments < 3 by norm_num [qcfg])]
  rw [if_neg (show ¬ qchain.length < 2 by norm_num [qchain])]
  rw [if_neg (show ¬ qchain.length = 2 by norm_num [qchain])]
  rw [if_neg (show ¬ qchain.length < qcfg.min_segments by norm_num [qchain, qcfg])]
  rw [hfuel, hinit]
  calc loop qcfg qchain 29 sQ0
      = loop qcfg qchain 28 sQ1 := loop_next_eq qcfg qchain 28 sQ0 sQ1 stepQ1
    _ = .ok [Entity.Arc ⟨0, 0⟩ 1 0 90] :=
        loop_done_eq qcfg qchain 27 sQ1 _ stepQ2

/-- Whether an entity is an `Arc`. -/
def Entity.is_arc : Entity → Prop
  | .Arc _ _ _ _ => True
  | _ => False

/-- No entity of the list is an `Arc`. -/
def emits_no_arc (es : List Entity) : Prop := ∀ e ∈ es, ¬ e.is_arc

theorem process_chain_pair (cfg : DxfConfig) (hm : ¬ cfg.min_segments < 3)
    (p q : Point) : process_chain cfg [p, q] = .ok [Entity.Line p q] := by
  unfold process_chain
  rw [if_neg hm]
  norm_num

/-- C4 (corrected): a chain of exactly `min_segments − 2` segments
(`min_segments − 1` points) never yields an `Arc`: for `min_segments = 3` it
returns the single `Line`, and for larger `min_segments` the initial-window
slice `chain[0..min_segments]` aborts, so no entity list is returned at
all.  (A chain of `min_segments − 1` segments, i.e. `min_segments` points,
can emit an arc — see the counterexample.) -/
theorem claim_C4_short_chain_no_arc (cfg : DxfConfig) (chain : List Point)
    (hm : 3 ≤ cfg.min_segments) (hlen : chain.length + 1 = cfg.min_segments)
    (es : List Entity) (hok : process_chain cfg chain = .ok es) :
    emits_no_arc es := by
  unfold process_chain at hok
  rw [if_neg (by omega)] at hok
  rw [if_neg (by omega : ¬ chain.length < 2)] at hok
  by_cases h2 : chain.length = 2
  · rw [if_pos h2] at hok
    obtain rfl : _ = es := by simpa using hok
    intro e he
    simp only [List.mem_cons, List.not_mem_nil, or_false] at he
    subst he
    simp [Entity.is_arc]
  · rw [if_neg h2] at hok
    rw [if_pos (by omega)] at hok
    exact absurd hok (by simp)

/-- C4 witness: a two-point chain with `min_segments = 3` yields one `Line`
and no `Arc`. -/
theorem claim_C4_witness :
    process_chain ⟨1 / 20, 100000, 3⟩ [⟨0, 0⟩, ⟨1, 0⟩] =
        .ok [Entity.Line ⟨0, 0⟩ ⟨1, 0⟩] ∧
      emits_no_arc [Entity.Line ⟨0, 0⟩ ⟨1, 0⟩] :=
  ⟨process_chain_pair _ (by norm_num) _ _,
    claim_C4_short_chain_no_arc ⟨1 / 20, 100000, 3⟩ [⟨0, 0⟩, ⟨1, 0⟩]
      (by norm_num) (by simp) _ (process_chain_pair _ (by norm_num) _ _)⟩

/-! ## C1: the radial-vs-chord test is a further acceptance condition

Three points on the unit circle at polar angles `0`, `π/4`, `5π/4`, with
`resolution = 1.1`: `make_circle` succeeds, `check_chain_circle` (including
`make_arc`) succeeds, but the step between the last two points subtends half
the circle, so the radial distance `π` differs from the chord `2` by more
than the resolution and the candidate is rejected. -/

def u2 : Point := ⟨-(Real.sqrt 2 / 2), -(Real.sqrt 2 / 2)⟩

def ucfg : DxfConfig := ⟨11 / 10, 100000, 3⟩

def uchain : List Point := [q0, q1, u2]

def arcU : FitArc := ⟨⟨0, 0⟩, 1, 0, 225⟩

def calU : ℝ := Real.sqrt (2 - Real.sqrt 2) + (2 + 0)

def sU : LoopState := ⟨[], 0, calU, none, 2⟩

def sU2 : LoopState :=
  ⟨[Entity.Line q0 q1], 1, calU + 2 - Real.sqrt (2 - Real.sqrt 2), none, 3⟩

theorem polar_u2 : circ1.get_polar_radians u2 = Real.pi + Real.pi / 4 := by
  unfold FitCircle.get_polar_radians
  rw [show u2.y - circ1.center.y = -(Real.sqrt 2 / 2) by norm_num [u2, circ1]]
  rw [show u2.x - circ1.center.x = -(Real.sqrt 2 / 2) by norm_num [u2, circ1]]
  rw [atan2_neg_diag _ sqrt_two_half_pos]
  rw [if_pos (by linarith [Real.pi_pos])]
  ring

theorem dist_q1u2 : q1.dist u2 = 2 := by
  refine dist_eval _ _ _ (by norm_num) ?_
  simp only [q1, u2]
  linear_combination (2 : ℝ) * sqrt_two_sq

theorem dist_c_u2 : circ1.center.dist u2 = 1 := by
  refine dist_eval _ _ _ (by norm_num) ?_
  simp only [circ1, u2]
  linear_combination (1 / 2 : ℝ) * sqrt_two_sq

theorem make_circle_u : make_circle ucfg q0 q1 u2 = some circ1 := by
  unfold make_circle
  simp only []
  have hA : q0.x * (q1.y - u2.y) - q0.y * (q1.x - u2.x) +
      q1.x * u2.y - u2.x * q1.y = Real.sqrt 2 := by
    simp only [q0, q1, u2]
    ring
  rw [hA]
  rw [if_neg (show ¬ |Real.sqrt 2| < CIRCLE_ZERO_TOLERANCE by
    rw [abs_of_nonneg (Real.sqrt_nonneg 2), CIRCLE_ZERO_TOLERANCE]
    nlinarith [sqrt_two_gt])]
  have hB : (q0.x ^ 2 + q0.y ^ 2) * (u2.y - q1.y) +
      (q1.x ^ 2 + q1.y ^ 2) * (q0.y - u2.y) +
      (u2.x ^ 2 + u2.y ^ 2) * (q1.y - q0.y) = 0 := by
    simp only [q0, q1, u2]
    linear_combination (Real.sqrt 2 / 2 : ℝ) * sqrt_two_sq
  have hC : (q0.x ^ 2 + q0.y ^ 2) * (q1.x - u2.x) +
      (q1.x ^ 2 + q1.y ^ 2) * (u2.x - q0.x) +
      (u2.x ^ 2 + u2.y ^ 2) * (q0.x - q1.x) = 0 := by
    simp only [q0, q1, u2]
    linear_combination (-(Real.sqrt 2 / 2) : ℝ) * sqrt_two_sq
  rw [hB, hC]
  have hrad : Point.dist ⟨-(0 : ℝ) / (2 * Real.sqrt 2),
      -(0 : ℝ) / (2 * Real.sqrt 2)⟩ q0 = 1 := by
    refine dist_eval _ _ _ (by norm_num) ?_
    simp only [q0]
    norm_num
  rw [hrad]
  rw [if_neg (show ¬ (1 : ℝ) > ucfg.max_radius by norm_num [ucfg])]
  simp only [circ1, Option.some.injEq, FitCircle.mk.injEq, Point.mk.injEq]
  norm_num

theorem perp_q1u2 : get_closest_perpendicular_point q1 u2 circ1.center =
    some ⟨0, 0⟩ := by
  unfold get_closest_perpendicular_point
  simp only []
  have hden : (u2.x - q1.x) ^ 2 + (u2.y - q1.y) ^ 2 = 4 := by
    simp only [q1, u2]
    linear_combination (2 : ℝ) * sqrt_two_sq
  have ht : ((circ1.center.x - q1.x) * (u2.x - q1.x) +
      (circ1.center.y - q1.y) * (u2.y - q1.y)) /
        ((u2.x - q1.x) ^ 2 + (u2.y - q1.y) ^ 2) = 1 / 2 := by
    rw [hden, div_eq_iff (by norm_num : (4 : ℝ) ≠ 0)]
    simp only [q1, u2, circ1]
    linear_combination sqrt_two_sq
  rw [ht]
  rw [if_neg (by norm_num [CIRCLE_ZERO_TOLERANCE])]
  simp only [Option.some.injEq, Point.mk.injEq]
  constructor <;> (simp only [q1, u2, circ1]; ring)

theorem make_arc_u (L : ℝ) : make_arc circ1 q0 q1 u2 L = some arcU := by
  unfold make_arc
  simp only []
  rw [polar_q0, polar_q1, polar_u2]
  rw [if_pos (show Real.pi + Real.pi / 4 > 0 by positivity)]
  rw [if_pos (show 0 < Real.pi / 4 ∧ Real.pi / 4 < Real.pi + Real.pi / 4 by
    constructor
    · positivity
    · linarith [Real.pi_pos])]
  rw [if_neg (show ¬ Direction.CounterClockwise = Direction.Unknown by decide)]
  rw [if_neg (show ¬ Direction.CounterClockwise = Direction.Clockwise by decide)]
  rw [if_neg (show ¬ Direction.CounterClockwise = Direction.Clockwise by decide)]
  simp only [arcU, Option.some.injEq, FitArc.mk.injEq]
  have hpi : Real.pi ≠ 0 := Real.pi_ne_zero
  refine ⟨rfl, rfl, by norm_num, ?_⟩
  rw [angle_deg_conv]
  field_simp
  ring

theorem check_chain_u (L : ℝ) :
    check_chain_circle ucfg [q0, q1, u2] circ1 L = some arcU := by
  unfold check_chain_circle
  rw [if_neg ?hrad]
  case hrad =>
    intro ⟨point, hpt, hgt⟩
    simp only [List.drop, List.mem_cons, List.not_mem_nil, or_false] at hpt
    rcases hpt with rfl | rfl
    · rw [dist_c_q1] at hgt
      norm_num [ucfg, circ1] at hgt
    · rw [dist_c_u2] at hgt
      norm_num [ucfg, circ1] at hgt
  rw [if_neg ?hfoot]
  case hfoot =>
    intro ⟨pq, hpq, cp, hcp, hgt⟩
    simp only [List.zip, List.zipWith, List.tail, List.mem_cons,
      List.not_mem_nil, or_false] at hpq
    rcases hpq with rfl | rfl
    · simp only [] at hcp
      rw [perp_q01] at hcp
      obtain rfl : footA = cp := by simpa using hcp
      rw [dist_c_footA] at hgt
      rw [show circ1.radius = (1 : ℝ) from rfl] at hgt
      rw [show ucfg.resolution = (11 : ℝ) / 10 from rfl] at hgt
      have h1 := foot_residual_small
      have h2 : (0 : ℝ) ≤ |(1 : ℝ) - Real.sqrt ((2 + Real.sqrt 2) / 4)| :=
        abs_nonneg _
      exact absurd hgt (not_lt.mpr (by linarith))
    · simp only [] at hcp
      rw [perp_q1u2] at hcp
      obtain rfl : (⟨0, 0⟩ : Point) = cp := by simpa using hcp
      have hd0 : circ1.center.dist ⟨0, 0⟩ = 0 := by
        refine dist_eval _ _ _ le_rfl ?_
        simp [circ1]
      rw [hd0] at hgt
      rw [show circ1.radius = (1 : ℝ) from rfl] at hgt
      rw [show ucfg.resolution = (11 : ℝ) / 10 from rfl] at hgt
      norm_num at hgt
  rw [show ([q0, q1, u2].getD 0 ⟨0, 0⟩) = q0 from rfl]
  rw [show ([q0, q1, u2].getD (([q0, q1, u2].length - 2) / 2 + 1) ⟨0, 0⟩) = q1 from rfl]
  rw [show ([q0, q1, u2].getD ([q0, q1, u2].length - 1) ⟨0, 0⟩) = u2 from rfl]
  exact make_arc_u L

theorem radial_q1u2 : circ1.get_radial_dist q1 u2 = Real.pi := by
  unfold FitCircle.get_radial_dist
  simp only []
  rw [polar_q1, polar_u2]
  rw [show |Real.pi / 4 - (Real.pi + Real.pi / 4)| = Real.pi by
    rw [abs_of_nonpos (by linarith [Real.pi_pos])]
    ring]
  rw [if_neg (lt_irrefl Real.pi)]

theorem not_fuzzy_q0u2 : ¬ fuzzy_eq q0 u2 := by
  intro hcon
  have h1 := hcon.1
  simp only [q0, u2, POINT_PRECISION] at h1
  rw [abs_of_nonneg (by nlinarith [sqrt_two_gt])] at h1
  nlinarith [sqrt_two_gt]

theorem not_fuzzy_q1u2 : ¬ fuzzy_eq q1 u2 := by
  intro hcon
  have h1 := hcon.1
  simp only [q1, u2, POINT_PRECISION] at h1
  rw [show Real.sqrt 2 / 2 - -(Real.sqrt 2 / 2) = Real.sqrt 2 by ring,
    abs_of_nonneg (Real.sqrt_nonneg 2)] at h1
  nlinarith [sqrt_two_gt]

theorem radial_chord_gap : ¬ |Real.pi * circ1.radius - q1.dist u2| < ucfg.resolution := by
  rw [dist_q1u2, show circ1.radius = (1 : ℝ) from rfl,
    show ucfg.resolution = (11 : ℝ) / 10 from rfl, mul_one]
  rw [abs_of_nonneg (by nlinarith [Real.pi_gt_d6])]
  intro hcon
  nlinarith [Real.pi_gt_d6]

/-- C1 counterexample: at this loop state the window endpoints are not
fuzzy-equal, no arc is live (so circle closure cannot fire), `make_circle`
returns a circle, `check_chain_circle` accepts it over the window and
`make_arc` resolves a direction (it returns `some`), yet the iteration takes
the fail path: the continuation state has `current_arc = none` and an
advanced window start instead of the accepted candidate, because the
radial-vs-chord test `|get_radial_dist·r − dist| < resolution` fails. -/
theorem claim_C1_counterexample :
    make_circle ucfg q0 q1 u2 = some circ1 ∧
      check_chain_circle ucfg [q0, q1, u2] circ1
        (sU.current_arc_length + q1.dist u2) = some arcU ∧
      ¬ fuzzy_eq q0 u2 ∧
      sU.current_arc = none ∧
      loop_step ucfg uchain sU = .next sU2 ∧
      sU2.current_arc = none := by
  refine ⟨make_circle_u, check_chain_u _, not_fuzzy_q0u2, rfl, ?_, rfl⟩
  unfold loop_step
  rw [if_neg (show ¬ uchain.length ≤ sU.i by norm_num [uchain, sU])]
  rw [if_neg (show ¬ sU.current_arc_length < 0 by
    rw [show sU.current_arc_length = calU from rfl, not_lt]
    unfold calU
    positivity)]
  rw [if_neg (show ¬ fuzzy_eq (uchain.getD (sU.i - 1) ⟨0, 0⟩)
      (uchain.getD sU.i ⟨0, 0⟩) from not_fuzzy_q1u2)]
  rw [show sU.current_arc = none from rfl]
  simp only []
  unfold grow_step
  simp only []
  rw [show uchain.getD (sU.current_arc_start +
      (sU.i - sU.current_arc_start - 2) / 2 + 1) ⟨0, 0⟩ = q1 from rfl]
  rw [show uchain.getD sU.current_arc_start ⟨0, 0⟩ = q0 from rfl]
  rw [show uchain.getD sU.i ⟨0, 0⟩ = u2 from rfl]
  rw [show uchain.getD (sU.i - 1) ⟨0, 0⟩ = q1 from rfl]
  rw [make_circle_u]
  simp only []
  rw [show slice uchain sU.current_arc_start (sU.i + 1) = [q0, q1, u2] from rfl]
  rw [check_chain_u]
  simp only []
  rw [radial_q1u2]
  rw [if_neg radial_chord_gap]
  simp only [fallback_step]
  unfold fail_step
  simp only []
  rw [show uchain.getD (sU.i - 1) ⟨0, 0⟩ = q1 from rfl]
  rw [show uchain.getD sU.i ⟨0, 0⟩ = u2 from rfl]
  rw [dist_q1u2]
  rw [show uchain.getD sU.current_arc_start ⟨0, 0⟩ = q0 from rfl]
  rw [show uchain.getD (sU.current_arc_start + 1) ⟨0, 0⟩ = q1 from rfl]
  rw [dist_q01]
  have hr : ¬ ucfg.min_segments ≤ sU.i - sU.current_arc_start - 1 := by
    norm_num [ucfg, sU]
  simp only [if_neg hr]
  rw [if_neg (show ¬ Real.sqrt (2 - Real.sqrt 2) >
      sU.current_arc_length + 2 by
    rw [show sU.current_arc_length = calU from rfl, not_lt]
    unfold calU
    nlinarith [Real.sqrt_nonneg (2 - Real.sqrt 2)])]
  refine congrArg StepRes.next ?_
  simp only [sU, sU2, calU, LoopState.mk.injEq, List.nil_append]

/-- C1 (corrected): in a step where the endpoints are not fuzzy-equal and
circle closure does not fire, a candidate produced by `make_circle`,
accepted by `check_chain_circle` and directed by `make_arc` is installed as
`current_arc` with `i` incremented — but only under the additional condition
that the radial distance along the circle between the last two points,
times the radius, differs from their chord length by less than `resolution`
(src/dxf_process.rs:243-244). -/
theorem claim_C1_grow_accept (cfg : DxfConfig) (chain : List Point)
    (s : LoopState) (circ : FitCircle) (arc : FitArc)
    (hni : s.i < chain.length)
    (hcal : ¬ s.current_arc_length < 0)
    (hskip : ¬ fuzzy_eq (chain.getD (s.i - 1) ⟨0, 0⟩) (chain.getD s.i ⟨0, 0⟩))
    (hclose : ¬ (fuzzy_eq (chain.getD s.current_arc_start ⟨0, 0⟩)
        (chain.getD s.i ⟨0, 0⟩) ∧ s.current_arc.isSome))
    (hmc : make_circle cfg (chain.getD s.current_arc_start ⟨0, 0⟩)
        (chain.getD (s.current_arc_start +
          (s.i - s.current_arc_start - 2) / 2 + 1) ⟨0, 0⟩)
        (chain.getD s.i ⟨0, 0⟩) = some circ)
    (hccc : check_chain_circle cfg (slice chain s.current_arc_start (s.i + 1))
        circ (s.current_arc_length +
          (chain.getD (s.i - 1) ⟨0, 0⟩).dist (chain.getD s.i ⟨0, 0⟩)) = some arc)
    (hrd : |circ.get_radial_dist (chain.getD (s.i - 1) ⟨0, 0⟩)
          (chain.getD s.i ⟨0, 0⟩) * circ.radius -
        (chain.getD (s.i - 1) ⟨0, 0⟩).dist (chain.getD s.i ⟨0, 0⟩)| <
        cfg.resolution) :
    loop_step cfg chain s = .next { s with
      current_arc_length := s.current_arc_length +
        (chain.getD (s.i - 1) ⟨0, 0⟩).dist (chain.getD s.i ⟨0, 0⟩),
      current_arc := some arc,
      i := s.i + 1 } := by
  unfold loop_step
  rw [if_neg (not_le.mpr hni), if_neg hcal, if_neg hskip]
  rcases harc : s.current_arc with _ | a
  · simp only []
    unfold grow_step
    simp only []
    rw [hmc]
    simp only []
    rw [hccc]
    simp only []
    rw [if_pos hrd]
  · simp only []
    rw [if_neg (fun hfz => hclose ⟨hfz, by rw [harc]; rfl⟩)]
    unfold grow_step
    simp only []
    rw [hmc]
    simp only []
    rw [hccc]
    simp only []
    rw [if_pos hrd]

/-- C1 witness: the accepting step of the quarter-arc scenario. -/
theorem claim_C1_witness :
    loop_step qcfg qchain sQ0 = .next { sQ0 with
      current_arc_length := sQ0.current_arc_length +
        (qchain.getD (sQ0.i - 1) ⟨0, 0⟩).dist (qchain.getD sQ0.i ⟨0, 0⟩),
      current_arc := some arcQ,
      i := sQ0.i + 1 } :=
  claim_C1_grow_accept qcfg qchain sQ0 circ1 arcQ
    (by norm_num [qchain, sQ0])
    (by rw [show sQ0.current_arc_length = calQ0 from rfl, not_lt]
        unfold calQ0
        positivity)
    not_fuzzy_q12
    (by intro hcon; simp [sQ0] at hcon)
    make_circle_q
    (check_chain_q _)
    (by rw [show qchain.getD (sQ0.i - 1) ⟨0, 0⟩ = q1 from rfl,
          show qchain.getD sQ0.i ⟨0, 0⟩ = q2 from rfl,
          radial_q12, dist_q12, show circ1.radius = (1 : ℝ) from rfl, mul_one]
        exact radial_residual_small)

/-! ## C3: chain assembly partitions the successor map -/

/-- The consecutive point pairs (directed segments) of a chain. -/
def chain_pairs (c : List Point) : List (Point × Point) := c.zip c.tail

/-- The endpoints of a `Line` entity. -/
def line_pts : Entity → Point × Point
  | .Line p q => (p, q)
  | _ => (⟨0, 0⟩, ⟨0, 0⟩)

theorem point_eq_of_cmp {a b : Point} (h : Point.cmp a b = Ordering.eq) :
    a = b := by
  obtain ⟨h1, h2⟩ := (point_cmp_eq_iff a b).mp h
  cases a
  cases b
  simp_all

/-- Removing a key from the map yields a permutation decomposition. -/
theorem find_remove_perm : ∀ (m : List (Point × Point)) (k v : Point)
    (m2 : List (Point × Point)), find_remove m k = some (v, m2) →
      m.Perm ((k, v) :: m2) := by
  intro m
  induction m with
  | nil => intro k v m2 h; simp [find_remove] at h
  | cons hd tl ih =>
    intro k v m2 h
    rw [find_remove] at h
    by_cases hcmp : Point.cmp k hd.1 = Ordering.eq <;>
      [rw [if_pos hcmp] at h; rw [if_neg hcmp] at h]
    · obtain ⟨rfl, rfl⟩ : hd.2 = v ∧ tl = m2 := by simpa using h
      have hk : k = hd.1 := point_eq_of_cmp hcmp
      subst hk
      exact List.Perm.of_eq (by simp)
    · rcases hfr : find_remove tl k with _ | ⟨v2, rest2⟩ <;> rw [hfr] at h
      · exact absurd h (by simp)
      · obtain ⟨rfl, rfl⟩ : v2 = v ∧ (hd.1, hd.2) :: rest2 = m2 := by
          simpa using h
        have h1 : List.Perm (hd :: tl) (hd :: (k, v2) :: rest2) :=
          (ih k v2 rest2 hfr).cons hd
        have h2 : List.Perm (hd :: (k, v2) :: rest2) ((k, v2) :: hd :: rest2) :=
          List.Perm.swap (k, v2) hd rest2
        have h3 : (k, v2) :: hd :: rest2 = (k, v2) :: (hd.1, hd.2) :: rest2 := by
          simp
        exact (h1.trans h2).trans (List.Perm.of_eq h3)

/-- The inner successor-following loop consumes exactly the map entries that
become the chain's consecutive pairs: the chain tail starts at `next`, and
the consumed map decomposes as the chain's pairs plus the leftover map. -/
theorem chain_from_spec (m : List (Point × Point)) (next : Point) :
    (chain_from m next).1.head? = some next ∧
      m.Perm (chain_pairs (chain_from m next).1 ++ (chain_from m next).2) := by
  generalize hlen : m.length = fuel
  induction fuel using Nat.strong_induction_on generalizing m next with
  | _ fuel ih =>
    rw [chain_from]
    rcases h : find_remove m next with _ | ⟨point, m2⟩
    · simp [chain_pairs]
    · simp only []
      have hl := find_remove_length h
      subst hlen
      obtain ⟨hhead, hperm⟩ := ih m2.length (by omega) m2 point rfl
      constructor
      · simp
      · rcases hr1 : (chain_from m2 point).1 with _ | ⟨p1, t⟩
        · rw [hr1] at hhead
          exact absurd hhead (by simp)
        · rw [hr1] at hhead hperm
          obtain rfl : p1 = point := by simpa using hhead
          have h1 : m.Perm ((next, p1) :: m2) :=
            find_remove_perm m next p1 m2 h
          have h2 : List.Perm ((next, p1) :: m2) ((next, p1) ::
              (chain_pairs (p1 :: t) ++ (chain_from m2 p1).2)) :=
            hperm.cons _
          have h3 : (next, p1) ::
              (chain_pairs (p1 :: t) ++ (chain_from m2 p1).2) =
              chain_pairs (next :: p1 :: t) ++ (chain_from m2 p1).2 := by
            simp [chain_pairs]
          exact (h1.trans h2).trans (List.Perm.of_eq h3)

/-- The chains assembled from the successor map consume its entries exactly:
the concatenation of all chains' consecutive pairs is a permutation of the
map. -/
theorem build_chains_perm (m : List (Point × Point)) :
    ((build_chains m).flatMap chain_pairs).Perm m := by
  generalize hlen : m.length = fuel
  induction fuel using Nat.strong_induction_on generalizing m with
  | _ fuel ih =>
    rcases m with _ | ⟨⟨k, v⟩, rest⟩
    · rw [build_chains]
      simp
    · rw [build_chains]
      simp only [List.flatMap_cons]
      obtain ⟨hhead, hperm⟩ := chain_from_spec rest v
      have hlt := chain_from_snd_length_le rest v
      subst hlen
      have hih := ih (chain_from rest v).2.length (by simp; omega)
        (chain_from rest v).2 rfl
      rcases hr1 : (chain_from rest v).1 with _ | ⟨p1, t⟩
      · rw [hr1] at hhead
        exact absurd hhead (by simp)
      · rw [hr1] at hhead hperm
        obtain rfl : p1 = v := by simpa using hhead
        have h0 : chain_pairs (k :: p1 :: t) ++
              ((build_chains (chain_from rest p1).2).flatMap chain_pairs)
            = (k, p1) :: (chain_pairs (p1 :: t) ++
                (build_chains (chain_from rest p1).2).flatMap chain_pairs) := by
          simp [chain_pairs]
        have h1 : List.Perm ((k, p1) :: (chain_pairs (p1 :: t) ++
              (build_chains (chain_from rest p1).2).flatMap chain_pairs))
            ((k, p1) :: (chain_pairs (p1 :: t) ++ (chain_from rest p1).2)) :=
          (hih.append_left (chain_pairs (p1 :: t))).cons _
        have h2 : List.Perm ((k, p1) :: (chain_pairs (p1 :: t) ++
              (chain_from rest p1).2)) ((k, p1) :: rest) :=
          (hperm.symm).cons _
        exact ((List.Perm.of_eq h0).trans h1).trans h2

/-- Inserting a fresh key prepends it, up to permutation. -/
theorem insert_map_perm : ∀ (m : List (Point × Point)) (k v : Point),
    (∀ e ∈ m, Point.cmp k e.1 ≠ Ordering.eq) →
      (insert_map m k v).Perm ((k, v) :: m) := by
  intro m
  induction m with
  | nil => intro k v _; simp [insert_map]
  | cons hd tl ih =>
    intro k v hfresh
    rw [insert_map]
    rcases hcmp : Point.cmp k hd.1 with _ | _ | _
    · exact List.Perm.refl _
    · exact absurd hcmp (hfresh hd (by simp))
    · have h1 : List.Perm (hd :: insert_map tl k v) (hd :: (k, v) :: tl) :=
        (ih k v fun e he => hfresh e (by simp [he])).cons hd
      exact h1.trans (List.Perm.swap (k, v) hd tl)

/-- Collecting all-line entities with pairwise cmp-distinct starts (also
distinct from the accumulator's keys) produces, up to permutation, the
accumulator extended by every line's endpoint pair. -/
theorem collect_lines_perm : ∀ (es : List Entity) (acc mp : List (Point × Point)),
    (∀ e ∈ es, e.is_line) →
    (∀ e ∈ es, ∀ a ∈ acc, Point.cmp (line_pts e).1 a.1 ≠ Ordering.eq) →
    ((es.map fun e => (line_pts e).1).Pairwise fun a b =>
      Point.cmp a b ≠ Ordering.eq) →
    collect_lines es acc = .ok mp →
    mp.Perm (acc ++ es.map line_pts) := by
  intro es
  induction es with
  | nil =>
    intro acc mp _ _ _ h
    obtain rfl : acc = mp := by simpa [collect_lines] using h
    simp
  | cons e rest ih =>
    intro acc mp hall haccfresh hpw h
    rcases e with ⟨p, q⟩ | _ | _ | _
    rotate_left
    · exact absurd (hall _ (List.mem_cons_self _ _)) (by simp [Entity.is_line])
    · exact absurd (hall _ (List.mem_cons_self _ _)) (by simp [Entity.is_line])
    · exact absurd (hall _ (List.mem_cons_self _ _)) (by simp [Entity.is_line])
    rw [collect_lines] at h
    simp only [List.map_cons, List.pairwise_cons] at hpw
    have hins : (insert_map acc p q).Perm ((p, q) :: acc) :=
      insert_map_perm acc p q fun a ha =>
        haccfresh (Entity.Line p q) (by simp) a ha
    have hih := ih (insert_map acc p q) mp
      (fun e2 he2 => hall e2 (by simp [he2]))
      (fun e2 he2 a ha => by
        have hmem := hins.mem_iff.mp ha
        rcases List.mem_cons.mp hmem with rfl | ha2
        · have := hpw.1 (line_pts e2).1 (by
            simp only [List.mem_map]
            exact ⟨e2, he2, rfl⟩)
          intro hcon
          exact this ((point_cmp_eq_iff _ _).mpr
            (by
              obtain ⟨h1, h2⟩ := (point_cmp_eq_iff _ _).mp hcon
              exact ⟨h1.symm, h2.symm⟩))
        · exact haccfresh e2 (by simp [he2]) a ha2)
      hpw.2 h
    have hfin : acc ++ (Entity.Line p q :: rest).map line_pts
        = acc ++ (p, q) :: rest.map line_pts := by simp [line_pts]
    refine hih.trans ?_
    rw [hfin]
    exact (hins.append_right _).trans List.perm_middle.symm

theorem point_cmp_self_eq (a : Point) : Point.cmp a a = Ordering.eq :=
  (point_cmp_eq_iff a a).mpr ⟨rfl, rfl⟩

theorem point_cmp_gt_of_x {a b : Point} (h : b.x < a.x) :
    Point.cmp a b = Ordering.gt := by
  unfold Point.cmp
  rw [compare_gt_iff_gt.mpr h]
  rfl

/-- C3 (corrected, needs pairwise-distinct starts): for a drawing of Line
entities whose start points are pairwise distinct under the map order, the
chains built by `process_drawing`'s assembly pass cover every input segment
as a consecutive point pair exactly once (the concatenation of all chains'
pairs is a permutation of the input segment list), and distinct chains have
disjoint segment sets. Without the distinct-start hypothesis the claim
fails: later insertions overwrite earlier ones and segments are dropped. -/
theorem claim_C3 (d : Drawing) (mp : List (Point × Point))
    (hall : ∀ e ∈ d.entities, e.is_line)
    (hpw : (d.entities.map fun e => (line_pts e).1).Pairwise
      fun a b => Point.cmp a b ≠ Ordering.eq)
    (h : collect_lines d.entities [] = .ok mp) :
    ((build_chains mp).flatMap chain_pairs).Perm (d.entities.map line_pts) ∧
      (build_chains mp).Pairwise
        fun c1 c2 => List.Disjoint (chain_pairs c1) (chain_pairs c2) := by
  have hmp : mp.Perm (d.entities.map line_pts) := by
    simpa using collect_lines_perm d.entities [] mp hall (by simp) hpw h
  have hperm : ((build_chains mp).flatMap chain_pairs).Perm
      (d.entities.map line_pts) := (build_chains_perm mp).trans hmp
  refine ⟨hperm, ?_⟩
  have hnodup : (d.entities.map line_pts).Nodup := by
    rw [List.Nodup, List.pairwise_map]
    rw [List.pairwise_map] at hpw
    refine hpw.imp ?_
    intro e1 e2 hne heq
    exact hne ((point_cmp_eq_iff _ _).mpr (by rw [heq]; exact ⟨rfl, rfl⟩))
  have hnd2 : ((build_chains mp).flatMap chain_pairs).Nodup :=
    hperm.nodup_iff.mpr hnodup
  exact ((List.nodup_flatMap.mp hnd2).2).imp fun hdisj => hdisj

/-- A drawing of two line entities sharing the start point (0,0): the second
insertion overwrites the first in the successor map. -/
def dC3x : Drawing :=
  ⟨[Entity.Line ⟨0, 0⟩ ⟨0, 1⟩, Entity.Line ⟨0, 0⟩ ⟨1, 0⟩]⟩

/-- C3 (counterexample to the unqualified claim): both entities of `dC3x` are
lines, yet its segment ((0,0),(0,1)) appears as a consecutive pair in NO
assembled chain — the duplicate start makes the map insertion drop it. -/
theorem claim_C3_counterexample :
    (∀ e ∈ dC3x.entities, e.is_line) ∧
    collect_lines dC3x.entities [] = .ok [(⟨0, 0⟩, ⟨1, 0⟩)] ∧
    build_chains [(⟨0, 0⟩, ⟨1, 0⟩)] = [[⟨0, 0⟩, ⟨1, 0⟩]] ∧
    ((⟨0, 0⟩ : Point), (⟨0, 1⟩ : Point)) ∈ dC3x.entities.map line_pts ∧
    ∀ c ∈ build_chains [((⟨0, 0⟩ : Point), (⟨1, 0⟩ : Point))],
      ((⟨0, 0⟩ : Point), (⟨0, 1⟩ : Point)) ∉ chain_pairs c := by
  have hins : insert_map [((⟨0, 0⟩ : Point), (⟨0, 1⟩ : Point))] ⟨0, 0⟩ ⟨1, 0⟩
      = [(⟨0, 0⟩, ⟨1, 0⟩)] := by
    rw [insert_map, point_cmp_self_eq]
  have hcf : chain_from ([] : List (Point × Point)) ⟨1, 0⟩ = ([⟨1, 0⟩], []) := by
    rw [chain_from]
    simp [find_remove]
  have hbc : build_chains [((⟨0, 0⟩ : Point), (⟨1, 0⟩ : Point))]
      = [[⟨0, 0⟩, ⟨1, 0⟩]] := by
    rw [build_chains]
    simp only [hcf]
    rw [build_chains]
  refine ⟨?_, ?_, hbc, ?_, ?_⟩
  · intro e he
    simp only [dC3x, List.mem_cons, List.not_mem_nil, or_false] at he
    rcases he with rfl | rfl <;> exact trivial
  · show collect_lines [Entity.Line ⟨0, 0⟩ ⟨0, 1⟩, Entity.Line ⟨0, 0⟩ ⟨1, 0⟩] []
      = .ok [(⟨0, 0⟩, ⟨1, 0⟩)]
    rw [collect_lines]
    have h1 : insert_map ([] : List (Point × Point)) ⟨0, 0⟩ ⟨0, 1⟩
        = [(⟨0, 0⟩, ⟨0, 1⟩)] := rfl
    rw [h1, collect_lines, hins, collect_lines]
  · simp [dC3x, line_pts]
  · rw [hbc]
    intro c hc
    obtain rfl : c = [(⟨0, 0⟩ : Point), ⟨1, 0⟩] := by simpa using hc
    simp only [chain_pairs, List.zip, List.tail]
    norm_num [Point.mk.injEq, Prod.mk.injEq]

/-- A drawing of two line entities with distinct start points forming one
chain (0,0) → (1,0) → (2,0). -/
def dC3w : Drawing :=
  ⟨[Entity.Line ⟨0, 0⟩ ⟨1, 0⟩, Entity.Line ⟨1, 0⟩ ⟨2, 0⟩]⟩

/-- Successor map collected from `dC3w`. -/
def mpC3 : List (Point × Point) := [(⟨0, 0⟩, ⟨1, 0⟩), (⟨1, 0⟩, ⟨2, 0⟩)]

/-- C3 witness: the corrected claim instantiated on the concrete two-line
drawing `dC3w`, with every hypothesis discharged. -/
theorem claim_C3_witness :
    (∀ e ∈ dC3w.entities, e.is_line) ∧
    ((dC3w.entities.map fun e => (line_pts e).1).Pairwise
      fun a b => Point.cmp a b ≠ Ordering.eq) ∧
    collect_lines dC3w.entities [] = .ok mpC3 ∧
    ((build_chains mpC3).flatMap chain_pairs).Perm (dC3w.entities.map line_pts) ∧
    (build_chains mpC3).Pairwise
      fun c1 c2 => List.Disjoint (chain_pairs c1) (chain_pairs c2) := by
  have h1 : ∀ e ∈ dC3w.entities, e.is_line := by
    intro e he
    simp only [dC3w, List.mem_cons, List.not_mem_nil, or_false] at he
    rcases he with rfl | rfl <;> exact trivial
  have h2 : (dC3w.entities.map fun e => (line_pts e).1).Pairwise
      fun a b => Point.cmp a b ≠ Ordering.eq := by
    simp only [dC3w, List.map_cons, List.map_nil, line_pts]
    refine List.pairwise_cons.mpr ⟨?_, List.pairwise_singleton _ _⟩
    intro b hb
    obtain rfl : b = (⟨1, 0⟩ : Point) := by simpa using hb
    intro hcon
    have hco := ((point_cmp_eq_iff _ _).mp hcon).1
    norm_num at hco
  have h3 : collect_lines dC3w.entities [] = .ok mpC3 := by
    have hgt : Point.cmp (⟨1, 0⟩ : Point) ⟨0, 0⟩ = Ordering.gt :=
      point_cmp_gt_of_x (by norm_num)
    have hins : insert_map [((⟨0, 0⟩ : Point), (⟨1, 0⟩ : Point))] ⟨1, 0⟩ ⟨2, 0⟩
        = mpC3 := by
      rw [insert_map, hgt]
      rfl
    show collect_lines [Entity.Line ⟨0, 0⟩ ⟨1, 0⟩, Entity.Line ⟨1, 0⟩ ⟨2, 0⟩] []
      = .ok mpC3
    rw [collect_lines]
    have hi1 : insert_map ([] : List (Point × Point)) ⟨0, 0⟩ ⟨1, 0⟩
        = [(⟨0, 0⟩, ⟨1, 0⟩)] := rfl
    rw [hi1, collect_lines, hins, collect_lines]
  exact ⟨h1, h2, h3, (claim_C3 dC3w mpC3 h1 h2 h3).1,
    (claim_C3 dC3w mpC3 h1 h2 h3).2⟩

/-! ## C7: the DXF text codec (src/dxf.rs)

Text is modelled as `List Char`.  `f64` formatting (Rust `Display`) and
float parsing (`str::parse::<f64>`) are abstracted as parameters `fmt` and
`parseF`; integer formatting and parsing are modelled concretely. -/

/-- ASCII fragment of `char::is_whitespace`, used by `str::trim`
(src/dxf.rs:176); only these whitespace characters can occur here. -/
def wsChar (c : Char) : Bool :=
  c == ' ' || c == '\t' || c == '\n' || c == '\r'

/-- `str::trim`: remove leading and trailing whitespace. -/
def trimChars (s : List Char) : List Char :=
  ((s.dropWhile wsChar).reverse.dropWhile wsChar).reverse

/-- `str::split('\n')`: the pieces between newlines (an empty source gives
one empty piece, and a trailing newline yields a final empty piece, as in
Rust). -/
def splitNl : List Char → List (List Char)
  | [] => [[]]
  | c :: rest =>
    let r := splitNl rest
    if c = '\n' then [] :: r else (c :: r.headI) :: r.tail

/-- The line preprocessing of `Drawing::parse` (src/dxf.rs:176): split on
newlines, trim every line, drop the empty ones. -/
def tokenize (s : List Char) : List (List Char) :=
  ((splitNl s).map trimChars).filter fun x => x.length > 0

/-- The decimal digit character for `n < 10`. -/
def digitChar (n : ℕ) : Char := Char.ofNat (48 + n)

/-- Digit emitter behind `natToChars`, fuel-indexed so that it reduces
definitionally; fuel `n + 1` always suffices. -/
def natToCharsCore : ℕ → ℕ → List Char → List Char
  | 0, _, acc => acc
  | fuel + 1, n, acc =>
    if n < 10 then digitChar n :: acc
    else natToCharsCore fuel (n / 10) (digitChar (n % 10) :: acc)

/-- `Display` for unsigned integers: decimal digits, most significant
first. -/
def natToChars (n : ℕ) : List Char := natToCharsCore (n + 1) n []

/-- `Display` for `i32`: optional minus sign, then decimal digits. -/
def intToChars (i : ℤ) : List Char :=
  if i < 0 then '-' :: natToChars i.natAbs else natToChars i.natAbs

/-- Digit-string parser behind `parseIntChars`: one or more decimal
digits. -/
def parseDigits (s : List Char) : Option ℕ :=
  if s = [] then none
  else if s.all Char.isDigit then
    some (s.foldl (fun acc c => acc * 10 + (c.toNat - 48)) 0)
  else none

/-- `str::parse::<i32>` (src/dxf.rs:182), overflow ignored — every tag in
a DXF file is small: an optional sign followed by decimal digits. -/
def parseIntChars : List Char → Option ℤ
  | '-' :: rest => (parseDigits rest).map fun n => -(n : ℤ)
  | '+' :: rest => (parseDigits rest).map fun n => (n : ℤ)
  | s => (parseDigits s).map fun n => (n : ℤ)

/-- `emit` (src/dxf.rs:99-101): append `"  {tag}\n{data}\n"`. -/
def emit (tag : ℤ) (data : List Char) : List Char :=
  ' ' :: ' ' :: (intToChars tag ++ '\n' :: (data ++ ['\n']))

/-- The `emit` calls of `Drawing::to_string` for one entity
(src/dxf.rs:120-161), as a list of (tag, data) records. -/
def entity_emits (fmt : ℝ → List Char) : Entity → List (ℤ × List Char)
  | .Line left right =>
    [(0, "LINE".toList), (8, fmt 0), (10, fmt left.x), (20, fmt left.y),
     (11, fmt right.x), (21, fmt right.y)]
  | .Arc center radius start_angle end_angle =>
    [(0, "ARC".toList), (8, fmt 0), (10, fmt center.x), (20, fmt center.y),
     (40, fmt radius), (50, fmt start_angle), (51, fmt end_angle)]
  | .Circle center radius =>
    [(0, "CIRCLE".toList), (8, fmt 0), (10, fmt center.x), (20, fmt center.y),
     (40, fmt radius)]
  | .Polyline curve_type vertices =>
    [(0, "POLYLINE".toList), (8, fmt 0), (70, natToChars 8),
     (75, natToChars curve_type)] ++
    (vertices.flatMap fun v =>
      [(0, "VERTEX".toList), (8, fmt 0), (70, natToChars 32),
       (10, fmt v.x), (20, fmt v.y)]) ++
    [(0, "SEQEND".toList)]

/-- The full `emit` sequence of `Drawing::to_string` (src/dxf.rs:104-170):
BLOCKS section, ENTITIES section with every entity, OBJECTS section, EOF. -/
def drawing_emits (fmt : ℝ → List Char) (d : Drawing) : List (ℤ × List Char) :=
  [(0, "SECTION".toList), (2, "BLOCKS".toList), (0, "ENDSEC".toList),
   (0, "SECTION".toList), (2, "ENTITIES".toList)] ++
  d.entities.flatMap (entity_emits fmt) ++
  [(0, "ENDSEC".toList), (0, "SECTION".toList), (2, "OBJECTS".toList),
   (0, "DICTIONARY".toList), (0, "ENDSEC".toList), (0, "EOF".toList)]

/-- `Drawing::to_string` (src/dxf.rs:103-171): the concatenation of all the
emitted records. -/
def Drawing.to_string (fmt : ℝ → List Char) (d : Drawing) : List Char :=
  (drawing_emits fmt d).flatMap fun p => emit p.1 p.2

/-- The error outcomes of `Drawing::parse` (the `unimplemented` constructor
stands for the `unimplemented!()` panic at src/dxf.rs:225). -/
inductive ParseErr where
  | badInt
  | eof
  | expectedSection (got : List Char)
  | unexpectedTag (expected got : ℤ)
  | missingTagForEntity (tag : ℤ)
  | badFloat
  | unsupportedEntityType (x : List Char)
  | unimplemented
deriving DecidableEq

/-- The mutable state of `Drawing::parse`'s loop (src/dxf.rs:177-180). -/
structure ParseSt where
  entities : List Entity
  state : ℕ
  entity_type : List Char
  entity_state : List (ℤ × List Char)

/-- `BTreeMap::get` on the `i32`-keyed entity state. -/
def entity_state_get : List (ℤ × List Char) → ℤ → Option (List Char)
  | [], _ => none
  | (k0, v0) :: rest, k =>
    if k = k0 then some v0 else entity_state_get rest k

/-- `BTreeMap::insert` on the `i32`-keyed entity state (sorted association
list, overwriting an equal key). -/
def entity_state_insert : List (ℤ × List Char) → ℤ → List Char →
    List (ℤ × List Char)
  | [], k, v => [(k, v)]
  | (k0, v0) :: rest, k, v =>
    if k < k0 then (k, v) :: (k0, v0) :: rest
    else if k = k0 then (k, v) :: rest
    else (k0, v0) :: entity_state_insert rest k v

/-- The LINE-completion of `Drawing::parse` (src/dxf.rs:213-224): read tags
10, 20, 11, 21 from the entity state (missing tag is an error) and parse
each as a float (failure propagates). -/
def line_from_state (parseF : List Char → Option ℝ)
    (es : List (ℤ × List Char)) : Except ParseErr Entity :=
  match entity_state_get es 10 with
  | none => .error (.missingTagForEntity 10)
  | some s10 =>
    match parseF s10 with
    | none => .error .badFloat
    | some x1 =>
      match entity_state_get es 20 with
      | none => .error (.missingTagForEntity 20)
      | some s20 =>
        match parseF s20 with
        | none => .error .badFloat
        | some y1 =>
          match entity_state_get es 11 with
          | none => .error (.missingTagForEntity 11)
          | some s11 =>
            match parseF s11 with
            | none => .error .badFloat
            | some x2 =>
              match entity_state_get es 21 with
              | none => .error (.missingTagForEntity 21)
              | some s21 =>
                match parseF s21 with
                | none => .error .badFloat
                | some y2 => .ok (Entity.Line ⟨x1, y1⟩ ⟨x2, y2⟩)

/-- The trailing `if state == 3` block of `Drawing::parse`
(src/dxf.rs:233-248): on tag 0, LINE starts an entity, ENDSEC leaves the
section, anything else is the unsupported-entity-type error. -/
def state3_dispatch (tag : ℤ) (value : List Char) (st : ParseSt) :
    Except ParseErr ParseSt :=
  if tag = 0 then
    if value = "LINE".toList then
      .ok { st with entity_type := "LINE".toList, state := 4 }
    else if value = "ENDSEC".toList then .ok { st with state := 0 }
    else .error (.unsupportedEntityType value)
  else .ok st

/-- The `while lines.len() > 0` loop of `Drawing::parse`
(src/dxf.rs:181-249).  Each iteration pops the tag line (parsed as `i32`,
failure propagating) and the value line (missing is the eof error), then
dispatches on `state` exactly as the `if`/`else if` chain does; the states
0, 1 and 2 `continue`, state 4 either completes the pending LINE on tag 0
(falling through to the state-3 block with the same record, as in the
source) or stores the record, and the state-3 block handles tag 0. -/
def parse_loop (parseF : List Char → Option ℝ) :
    ParseSt → List (List Char) → Except ParseErr (List Entity)
  | st, [] => .ok st.entities
  | st, tagLine :: rest =>
    match parseIntChars tagLine, rest with
    | none, _ => .error .badInt
    | some _, [] => .error .eof
    | some tag, value :: rest2 =>
      if st.state = 0 then
        if value = "EOF".toList then .ok st.entities
        else if value ≠ "SECTION".toList then .error (.expectedSection value)
        else parse_loop parseF { st with state := 1 } rest2
      else if st.state = 1 then
        if tag = 2 then
          if value = "ENTITIES".toList then
            parse_loop parseF { st with state := 3 } rest2
          else parse_loop parseF { st with state := 2 } rest2
        else .error (.unexpectedTag 2 tag)
      else if st.state = 2 then
        if tag = 0 ∧ value = "ENDSEC".toList then
          parse_loop parseF { st with state := 0 } rest2
        else parse_loop parseF st rest2
      else if st.state = 4 then
        if tag = 0 then
          if st.entity_type = "LINE".toList then
            match line_from_state parseF st.entity_state with
            | .error e => .error e
            | .ok ent =>
              match state3_dispatch tag value { st with
                  entities := st.entities ++ [ent],
                  entity_state := [], state := 3 } with
              | .error e => .error e
              | .ok st2 => parse_loop parseF st2 rest2
          else .error .unimplemented
        else
          parse_loop parseF { st with
            entity_state := entity_state_insert st.entity_state tag value } rest2
      else if st.state = 3 then
        match state3_dispatch tag value st with
        | .error e => .error e
        | .ok st2 => parse_loop parseF st2 rest2
      else parse_loop parseF st rest2

/-- `Drawing::parse` (src/dxf.rs:175-253). -/
def Drawing.parse (parseF : List Char → Option ℝ) (src : List Char) :
    Except ParseErr Drawing :=
  match parse_loop parseF ⟨[], 0, [], []⟩ (tokenize src) with
  | .error e => .error e
  | .ok es => .ok ⟨es⟩

/-- A text chunk that survives the splitting intact: no embedded newline,
no leading or trailing whitespace, nonempty. -/
def goodChunk (s : List Char) : Prop :=
  ('\n' ∉ s) ∧ trimChars s = s ∧ s ≠ []

instance (s : List Char) : Decidable (goodChunk s) := by
  unfold goodChunk
  infer_instance

theorem splitNl_append (s t : List Char) (hs : '\n' ∉ s) :
    splitNl (s ++ '\n' :: t) = s :: splitNl t := by
  induction s with
  | nil => simp [splitNl]
  | cons c s ih =>
    have hc : ¬ c = '\n' := by
      intro h
      exact hs (h ▸ List.mem_cons_self c s)
    rw [List.cons_append, splitNl]
    rw [ih fun h => hs (List.mem_cons_of_mem c h)]
    simp [hc]

theorem trimChars_cons_space (s : List Char) :
    trimChars (' ' :: s) = trimChars s := rfl

/-- Tokenizing the concatenation of emitted records recovers the trimmed
tag and value of every record, in order. -/
theorem tokenize_emits (rs : List (ℤ × List Char))
    (h : ∀ p ∈ rs, goodChunk (intToChars p.1) ∧ goodChunk p.2) :
    tokenize (rs.flatMap fun p => emit p.1 p.2) =
      rs.flatMap fun p => [intToChars p.1, p.2] := by
  induction rs with
  | nil => rfl
  | cons p rs ih =>
    obtain ⟨⟨hn1, ht1, he1⟩, ⟨hn2, ht2, he2⟩⟩ := h p (List.mem_cons_self p rs)
    have hflat : (p :: rs).flatMap (fun p => emit p.1 p.2)
        = (' ' :: ' ' :: intToChars p.1) ++
          '\n' :: (p.2 ++ '\n' :: rs.flatMap fun p => emit p.1 p.2) := by
      simp [emit, List.flatMap_cons, List.append_assoc]
    have h1 : '\n' ∉ (' ' :: ' ' :: intToChars p.1) := by
      simp [List.mem_cons, hn1]
    rw [hflat]
    unfold tokenize
    rw [splitNl_append _ _ h1, splitNl_append _ _ hn2]
    simp only [List.map_cons, trimChars_cons_space, ht1, ht2]
    rw [List.filter_cons_of_pos, List.filter_cons_of_pos]
    · have ihe := ih fun q hq => h q (List.mem_cons_of_mem p hq)
      unfold tokenize at ihe
      rw [ihe]
      simp [List.flatMap_cons]
    · exact decide_eq_true (List.length_pos.mpr he2)
    · exact decide_eq_true (List.length_pos.mpr he1)

/-- The coordinates an entity hands to the float formatter when
serialized (beyond the constant layer coordinate 0). -/
def entity_coords : Entity → List ℝ
  | .Line left right => [left.x, left.y, right.x, right.y]
  | .Arc center radius start_angle end_angle =>
    [center.x, center.y, radius, start_angle, end_angle]
  | .Circle center radius => [center.x, center.y, radius]
  | .Polyline _ vertices => vertices.flatMap fun v => [v.x, v.y]

/-- All reals the serializer formats for a drawing: the constant 0 of the
layer records plus every entity's coordinates. -/
def drawing_coords (d : Drawing) : List ℝ :=
  0 :: d.entities.flatMap entity_coords

/-- The serialized trailer, as tokens. -/
def footerTokens : List (List Char) :=
  [intToChars 0, "ENDSEC".toList, intToChars 0, "SECTION".toList,
   intToChars 2, "OBJECTS".toList, intToChars 0, "DICTIONARY".toList,
   intToChars 0, "ENDSEC".toList, intToChars 0, "EOF".toList]

theorem parse_header (parseF : List Char → Option ℝ) (et : List Char)
    (m : List (ℤ × List Char)) (ts : List (List Char)) :
    parse_loop parseF ⟨[], 0, et, m⟩
      ([intToChars 0, "SECTION".toList, intToChars 2, "BLOCKS".toList,
        intToChars 0, "ENDSEC".toList, intToChars 0, "SECTION".toList,
        intToChars 2, "ENTITIES".toList] ++ ts)
      = parse_loop parseF ⟨[], 3, et, m⟩ ts := rfl

theorem parse_state3_line (parseF : List Char → Option ℝ) (acc : List Entity)
    (et : List Char) (m : List (ℤ × List Char)) (ts : List (List Char)) :
    parse_loop parseF ⟨acc, 3, et, m⟩ (intToChars 0 :: "LINE".toList :: ts)
      = parse_loop parseF ⟨acc, 4, "LINE".toList, m⟩ ts := rfl

theorem parse_values (parseF : List Char → Option ℝ) (acc : List Entity)
    (v8 v10 v20 v11 v21 : List Char) (ts : List (List Char)) :
    parse_loop parseF ⟨acc, 4, "LINE".toList, []⟩
      ([intToChars 8, v8, intToChars 10, v10, intToChars 20, v20,
        intToChars 11, v11, intToChars 21, v21] ++ ts)
      = parse_loop parseF ⟨acc, 4, "LINE".toList,
          [(8, v8), (10, v10), (11, v11), (20, v20), (21, v21)]⟩ ts := rfl

theorem parse_footer_tail (parseF : List Char → Option ℝ) (acc : List Entity)
    (et : List Char) (m : List (ℤ × List Char)) :
    parse_loop parseF ⟨acc, 0, et, m⟩
      [intToChars 0, "SECTION".toList, intToChars 2, "OBJECTS".toList,
       intToChars 0, "DICTIONARY".toList, intToChars 0, "ENDSEC".toList,
       intToChars 0, "EOF".toList] = .ok acc := rfl

theorem parse_boundary_endsec (parseF : List Char → Option ℝ)
    (fmt : ℝ → List Char) (l r : Point) (acc : List Entity) (v8 : List Char)
    (ts : List (List Char))
    (h10 : parseF (fmt l.x) = some l.x) (h20 : parseF (fmt l.y) = some l.y)
    (h11 : parseF (fmt r.x) = some r.x) (h21 : parseF (fmt r.y) = some r.y) :
    parse_loop parseF ⟨acc, 4, "LINE".toList,
        [(8, v8), (10, fmt l.x), (11, fmt r.x), (20, fmt l.y), (21, fmt r.y)]⟩
      (intToChars 0 :: "ENDSEC".toList :: ts)
      = parse_loop parseF ⟨acc ++ [.Line l r], 0, "LINE".toList, []⟩ ts := by
  have hlfs : line_from_state parseF
      [(8, v8), (10, fmt l.x), (11, fmt r.x), (20, fmt l.y), (21, fmt r.y)]
      = .ok (.Line l r) := by
    simp [line_from_state, entity_state_get, h10, h20, h11, h21]
  have hmid : parse_loop parseF ⟨acc, 4, "LINE".toList,
        [(8, v8), (10, fmt l.x), (11, fmt r.x), (20, fmt l.y), (21, fmt r.y)]⟩
      (intToChars 0 :: "ENDSEC".toList :: ts)
      = (match line_from_state parseF
            [(8, v8), (10, fmt l.x), (11, fmt r.x), (20, fmt l.y),
             (21, fmt r.y)] with
         | .error e => .error e
         | .ok ent =>
           match state3_dispatch 0 ("ENDSEC".toList)
               ⟨acc ++ [ent], 3, "LINE".toList, []⟩ with
           | .error e => .error e
           | .ok st2 => parse_loop parseF st2 ts) := rfl
  rw [hmid, hlfs]
  rfl

theorem parse_boundary_line (parseF : List Char → Option ℝ)
    (fmt : ℝ → List Char) (l r : Point) (acc : List Entity) (v8 : List Char)
    (ts : List (List Char))
    (h10 : parseF (fmt l.x) = some l.x) (h20 : parseF (fmt l.y) = some l.y)
    (h11 : parseF (fmt r.x) = some r.x) (h21 : parseF (fmt r.y) = some r.y) :
    parse_loop parseF ⟨acc, 4, "LINE".toList,
        [(8, v8), (10, fmt l.x), (11, fmt r.x), (20, fmt l.y), (21, fmt r.y)]⟩
      (intToChars 0 :: "LINE".toList :: ts)
      = parse_loop parseF ⟨acc ++ [.Line l r], 4, "LINE".toList, []⟩ ts := by
  have hlfs : line_from_state parseF
      [(8, v8), (10, fmt l.x), (11, fmt r.x), (20, fmt l.y), (21, fmt r.y)]
      = .ok (.Line l r) := by
    simp [line_from_state, entity_state_get, h10, h20, h11, h21]
  have hmid : parse_loop parseF ⟨acc, 4, "LINE".toList,
        [(8, v8), (10, fmt l.x), (11, fmt r.x), (20, fmt l.y), (21, fmt r.y)]⟩
      (intToChars 0 :: "LINE".toList :: ts)
      = (match line_from_state parseF
            [(8, v8), (10, fmt l.x), (11, fmt r.x), (20, fmt l.y),
             (21, fmt r.y)] with
         | .error e => .error e
         | .ok ent =>
           match state3_dispatch 0 ("LINE".toList)
               ⟨acc ++ [ent], 3, "LINE".toList, []⟩ with
           | .error e => .error e
           | .ok st2 => parse_loop parseF st2 ts) := rfl
  rw [hmid, hlfs]
  rfl

set_option maxHeartbeats 2000000 in
/-- In state 4 with an empty entity state, consuming one LINE entity's five
value records and then the rest of an all-line token stream (ending in the
trailer) appends the parsed line and every following one. -/
theorem parse_pending (parseF : List Char → Option ℝ) (fmt : ℝ → List Char) :
    ∀ (rest : List Entity) (l r : Point) (acc : List Entity),
    (∀ e ∈ rest, e.is_line) →
    parseF (fmt l.x) = some l.x → parseF (fmt l.y) = some l.y →
    parseF (fmt r.x) = some r.x → parseF (fmt r.y) = some r.y →
    (∀ x ∈ rest.flatMap entity_coords, parseF (fmt x) = some x) →
    parse_loop parseF ⟨acc, 4, "LINE".toList, []⟩
      ([intToChars 8, fmt 0, intToChars 10, fmt l.x, intToChars 20, fmt l.y,
        intToChars 11, fmt r.x, intToChars 21, fmt r.y] ++
       ((rest.flatMap fun e => (entity_emits fmt e).flatMap fun p =>
          [intToChars p.1, p.2]) ++ footerTokens))
      = .ok (acc ++ Entity.Line l r :: rest) := by
  intro rest
  induction rest with
  | nil =>
    intro l r acc _ h10 h20 h11 h21 _
    exact (parse_boundary_endsec parseF fmt l r acc (fmt 0)
        [intToChars 0, "SECTION".toList, intToChars 2, "OBJECTS".toList,
         intToChars 0, "DICTIONARY".toList, intToChars 0, "ENDSEC".toList,
         intToChars 0, "EOF".toList] h10 h20 h11 h21).trans
      (parse_footer_tail parseF (acc ++ [.Line l r]) _ _)
  | cons e2 rest2 ih =>
    intro l r acc hlines h10 h20 h11 h21 hco
    obtain ⟨l2, r2, rfl⟩ : ∃ l2 r2, e2 = Entity.Line l2 r2 := by
      have hl := hlines e2 (List.mem_cons_self e2 rest2)
      rcases e2 with ⟨l2, r2⟩ | _ | _ | _
      · exact ⟨l2, r2, rfl⟩
      all_goals exact absurd hl (by simp [Entity.is_line])
    have h10b : parseF (fmt l2.x) = some l2.x := hco l2.x (by
      rw [List.flatMap_cons]
      exact List.mem_append_left _ (by simp [entity_coords]))
    have h20b : parseF (fmt l2.y) = some l2.y := hco l2.y (by
      rw [List.flatMap_cons]
      exact List.mem_append_left _ (by simp [entity_coords]))
    have h11b : parseF (fmt r2.x) = some r2.x := hco r2.x (by
      rw [List.flatMap_cons]
      exact List.mem_append_left _ (by simp [entity_coords]))
    have h21b : parseF (fmt r2.y) = some r2.y := hco r2.y (by
      rw [List.flatMap_cons]
      exact List.mem_append_left _ (by simp [entity_coords]))
    have hcob : ∀ x ∈ rest2.flatMap entity_coords, parseF (fmt x) = some x :=
      fun x hx => hco x (by
        rw [List.flatMap_cons]
        exact List.mem_append_right _ hx)
    have hi := ih l2 r2 (acc ++ [.Line l r])
      (fun e he => hlines e (List.mem_cons_of_mem _ he))
      h10b h20b h11b h21b hcob
    refine ((parse_boundary_line parseF fmt l r acc (fmt 0) _
        h10 h20 h11 h21).trans hi).trans ?_
    simp

set_option maxHeartbeats 2000000 in
/-- C7 (corrected): the serialise-then-parse round trip holds only for
drawings whose entities are all Lines — `Drawing::parse` supports no other
entity type.  For a Line-only drawing, with a float formatter whose output
the float parser inverts on the drawing's coordinates (and which emits no
newline, no surrounding whitespace and nonempty text), parsing the
serialised text succeeds and returns the drawing exactly. -/
theorem claim_C7 (fmt : ℝ → List Char) (parseF : List Char → Option ℝ)
    (d : Drawing)
    (hlines : ∀ e ∈ d.entities, e.is_line)
    (hg : ∀ x ∈ drawing_coords d, goodChunk (fmt x))
    (hr : ∀ x ∈ drawing_coords d, parseF (fmt x) = some x) :
    Drawing.parse parseF (Drawing.to_string fmt d) = .ok d := by
  obtain ⟨es⟩ := d
  have hgood : ∀ p ∈ drawing_emits fmt ⟨es⟩,
      goodChunk (intToChars p.1) ∧ goodChunk p.2 := by
    intro p hp
    rw [drawing_emits] at hp
    simp only [List.mem_append, List.mem_cons, List.not_mem_nil, or_false] at hp
    rcases hp with (hp | hp) | hp
    · rcases hp with rfl | rfl | rfl | rfl | rfl <;> exact ⟨by decide, by decide⟩
    · rw [List.mem_flatMap] at hp
      obtain ⟨e, he, hpe⟩ := hp
      have hline := hlines e he
      rcases e with ⟨l, r⟩ | _ | _ | _
      rotate_left
      · exact absurd hline (by simp [Entity.is_line])
      · exact absurd hline (by simp [Entity.is_line])
      · exact absurd hline (by simp [Entity.is_line])
      have hmem : ∀ x ∈ entity_coords (Entity.Line l r), goodChunk (fmt x) := by
        intro x hx
        refine hg x ?_
        rw [drawing_coords]
        exact List.mem_cons_of_mem _ (List.mem_flatMap.mpr ⟨_, he, hx⟩)
      have h0 : goodChunk (fmt 0) := hg 0 (by
        rw [drawing_coords]
        exact List.mem_cons_self _ _)
      simp only [entity_emits, List.mem_cons, List.not_mem_nil, or_false] at hpe
      rcases hpe with rfl | rfl | rfl | rfl | rfl | rfl
      · exact ⟨by decide, by decide⟩
      · exact ⟨(by decide : goodChunk (intToChars 8)), h0⟩
      · exact ⟨(by decide : goodChunk (intToChars 10)),
          hmem l.x (by simp [entity_coords])⟩
      · exact ⟨(by decide : goodChunk (intToChars 20)),
          hmem l.y (by simp [entity_coords])⟩
      · exact ⟨(by decide : goodChunk (intToChars 11)),
          hmem r.x (by simp [entity_coords])⟩
      · exact ⟨(by decide : goodChunk (intToChars 21)),
          hmem r.y (by simp [entity_coords])⟩
    · rcases hp with rfl | rfl | rfl | rfl | rfl | rfl <;>
        exact ⟨by decide, by decide⟩
  have htok : tokenize (Drawing.to_string fmt ⟨es⟩)
      = (drawing_emits fmt ⟨es⟩).flatMap fun p => [intToChars p.1, p.2] :=
    tokenize_emits _ hgood
  have hflat : ((drawing_emits fmt ⟨es⟩).flatMap fun p => [intToChars p.1, p.2])
      = [intToChars 0, "SECTION".toList, intToChars 2, "BLOCKS".toList,
         intToChars 0, "ENDSEC".toList, intToChars 0, "SECTION".toList,
         intToChars 2, "ENTITIES".toList] ++
        ((es.flatMap fun e => (entity_emits fmt e).flatMap fun p =>
           [intToChars p.1, p.2]) ++ footerTokens) := by
    rw [drawing_emits]
    rw [List.flatMap_append, List.flatMap_append, List.flatMap_assoc]
    rfl
  have hparse : parse_loop parseF ⟨[], 0, [], []⟩
      ((drawing_emits fmt ⟨es⟩).flatMap fun p => [intToChars p.1, p.2])
      = .ok es := by
    rw [hflat]
    refine (parse_header parseF [] [] _).trans ?_
    cases es with
    | nil => rfl
    | cons e es2 =>
      have hline := hlines e (List.mem_cons_self e es2)
      rcases e with ⟨l, r⟩ | _ | _ | _
      rotate_left
      · exact absurd hline (by simp [Entity.is_line])
      · exact absurd hline (by simp [Entity.is_line])
      · exact absurd hline (by simp [Entity.is_line])
      have hco : ∀ x ∈ (Entity.Line l r :: es2).flatMap entity_coords,
          parseF (fmt x) = some x := by
        intro x hx
        refine hr x ?_
        rw [drawing_coords]
        exact List.mem_cons_of_mem _ hx
      refine (parse_state3_line parseF [] [] [] _).trans ?_
      exact parse_pending parseF fmt es2 l r []
        (fun e2 he2 => hlines e2 (List.mem_cons_of_mem _ he2))
        (hco l.x (by
          rw [List.flatMap_cons]
          exact List.mem_append_left _ (by simp [entity_coords])))
        (hco l.y (by
          rw [List.flatMap_cons]
          exact List.mem_append_left _ (by simp [entity_coords])))
        (hco r.x (by
          rw [List.flatMap_cons]
          exact List.mem_append_left _ (by simp [entity_coords])))
        (hco r.y (by
          rw [List.flatMap_cons]
          exact List.mem_append_left _ (by simp [entity_coords])))
        (fun x hx => hco x (by
          rw [List.flatMap_cons]
          exact List.mem_append_right _ hx))
  rw [Drawing.parse, htok, hparse]

/-- A float formatter for the two coordinate values 0 and 1. -/
def fmtW : ℝ → List Char := fun x => if x = 0 then "0".toList else "1".toList

/-- A float parser inverting `fmtW` on 0 and 1. -/
def parseFW : List Char → Option ℝ := fun s =>
  if s = "0".toList then some 0 else if s = "1".toList then some 1 else none

/-- A drawing made of one Circle entity (so only Line/Arc/Circle). -/
def dC7x : Drawing := ⟨[Entity.Circle ⟨0, 0⟩ 1]⟩

/-- Discriminator for the `Circle` variant. -/
def Entity.is_circle : Entity → Prop
  | .Circle _ _ => True
  | _ => False

/-- A single-line drawing used as the round-trip witness input. -/
def dC7w : Drawing := ⟨[Entity.Line ⟨0, 0⟩ ⟨1, 0⟩]⟩

theorem fmtW_zero : fmtW 0 = "0".toList := by simp [fmtW]

theorem fmtW_one : fmtW 1 = "1".toList := by norm_num [fmtW]

theorem parseFW_zero : parseFW ("0".toList) = some 0 := by
  simp [parseFW]

theorem parseFW_one : parseFW ("1".toList) = some 1 := by
  simp [parseFW]

set_option maxHeartbeats 2000000 in
/-- C7 counterexample: `dC7x` consists only of Line/Arc/Circle entities (one
Circle), the formatter/parser pair is faithful on its coordinates 0 and 1,
yet parsing the serialised text does not succeed — the parser supports no
entity type but LINE and rejects the CIRCLE record with the
unsupported-entity-type error. -/
theorem claim_C7_counterexample :
    (∀ e ∈ dC7x.entities, e.is_line ∨ e.is_arc ∨ e.is_circle) ∧
    goodChunk (fmtW 0) ∧ goodChunk (fmtW 1) ∧
    parseFW (fmtW 0) = some 0 ∧ parseFW (fmtW 1) = some 1 ∧
    Drawing.parse parseFW (Drawing.to_string fmtW dC7x)
      = .error (.unsupportedEntityType ("CIRCLE".toList)) := by
  refine ⟨?_, ?_, ?_, ?_, ?_, ?_⟩
  · intro e he
    simp only [dC7x, List.mem_cons, List.not_mem_nil, or_false] at he
    subst he
    exact Or.inr (Or.inr trivial)
  · rw [fmtW_zero]; decide
  · rw [fmtW_one]; decide
  · rw [fmtW_zero]; exact parseFW_zero
  · rw [fmtW_one]; exact parseFW_one
  · have hrec : drawing_emits fmtW dC7x =
        [(0, "SECTION".toList), (2, "BLOCKS".toList), (0, "ENDSEC".toList),
         (0, "SECTION".toList), (2, "ENTITIES".toList),
         (0, "CIRCLE".toList), (8, "0".toList), (10, "0".toList),
         (20, "0".toList), (40, "1".toList),
         (0, "ENDSEC".toList), (0, "SECTION".toList), (2, "OBJECTS".toList),
         (0, "DICTIONARY".toList), (0, "ENDSEC".toList), (0, "EOF".toList)] := by
      simp [drawing_emits, entity_emits, dC7x, fmtW_zero, fmtW_one]
    rw [Drawing.to_string, hrec]
    rfl

/-- C7 witness: the corrected round-trip theorem instantiated on the
concrete one-line drawing `dC7w` with the concrete formatter/parser pair,
every hypothesis discharged. -/
theorem claim_C7_witness :
    (∀ e ∈ dC7w.entities, e.is_line) ∧
    (∀ x ∈ drawing_coords dC7w, goodChunk (fmtW x)) ∧
    (∀ x ∈ drawing_coords dC7w, parseFW (fmtW x) = some x) ∧
    Drawing.parse parseFW (Drawing.to_string fmtW dC7w) = .ok dC7w := by
  have hcoords : drawing_coords dC7w = [0, 0, 0, 1, 0] := by
    simp [drawing_coords, dC7w, entity_coords]
  have h1 : ∀ e ∈ dC7w.entities, e.is_line := by
    intro e he
    simp only [dC7w, List.mem_cons, List.not_mem_nil, or_false] at he
    subst he
    exact trivial
  have h2 : ∀ x ∈ drawing_coords dC7w, goodChunk (fmtW x) := by
    intro x hx
    rw [hcoords] at hx
    simp only [List.mem_cons, List.not_mem_nil, or_false] at hx
    rcases hx with rfl | rfl | rfl | rfl | rfl
    · rw [fmtW_zero]; decide
    · rw [fmtW_zero]; decide
    · rw [fmtW_zero]; decide
    · rw [fmtW_one]; decide
    · rw [fmtW_zero]; decide
  have h3 : ∀ x ∈ drawing_coords dC7w, parseFW (fmtW x) = some x := by
    intro x hx
    rw [hcoords] at hx
    simp only [List.mem_cons, List.not_mem_nil, or_false] at hx
    rcases hx with rfl | rfl | rfl | rfl | rfl
    · rw [fmtW_zero]; exact parseFW_zero
    · rw [fmtW_zero]; exact parseFW_zero
    · rw [fmtW_zero]; exact parseFW_zero
    · rw [fmtW_one]; exact parseFW_one
    · rw [fmtW_zero]; exact parseFW_zero
  exact ⟨h1, h2, h3, claim_C7 fmtW parseFW dC7w h1 h2 h3⟩

end

end DxfWelder
